import Mathlib

/-!
# Verification of the tinymist type-inference core

A shallow embedding of the type-checking core found in
`crates/tinymist-query/src/analysis/ty.rs` and
`crates/tinymist-query/src/analysis/ty/def.rs`, together with theorems
settling the specification claims about it.

Embedding conventions:

* `DefId` and `Span` are `Nat`; `Span.detached` is `0` (the Rust
  `Span::detached()` sentinel), and `Span.isDetached` tests it.
* Host `Value`s are opaque to the checker, so they are embedded as `Nat`
  tokens.
* Rust `HashMap`s are embedded as association lists: `HashMap::insert`
  replaces the first binding of the key (or appends), and
  `entry(k).or_insert(v)` leaves the list unchanged when the key is bound.
* The shared-mutable `FlowVar` stores (`Arc<RwLock<FlowVarStore>>`) are
  embedded by threading the variable map through every operation.
* Recursion that the Rust source performs on the (possibly cyclic)
  constraint graph is embedded with an explicit fuel parameter; running out
  of fuel is `TRes.fuelOut`, and a Rust `unwrap()` on a missing map entry is
  `TRes.panicked`.
* The global canonicalization cache `cano_cache` of `TypeCanoStore` is
  looked up by `TypeSimplifier::simplify` but no statement of the program
  ever inserts into it, so its lookup never hits; the embedding therefore
  omits this always-empty table (the per-variable `cano_local_cache` and the
  polarity sets are embedded in full).
-/

namespace Tinymist

/-- Definition identifiers (`reflexo::vector::ir::DefId`). -/
abbrev DefId := Nat

/-- Source spans (`typst::syntax::Span`); `0` plays `Span::detached()`. -/
abbrev Span := Nat

/-- `Span::detached()`. -/
def Span.detached : Span := 0

/-- `Span::is_detached`. -/
def Span.isDetached (s : Span) : Bool := s == 0

/-- Opaque host values (`typst::foundations::Value`): the checker only
stores and moves them, so a token suffices. -/
abbrev ValueRepr := Nat

/-- Modelled from the spec: the closed set of built-in scalar/structural
aliases (`FlowBuiltinType`), declared in `analysis/ty/builtin.rs` which is
not part of the provided sources; the variant list follows §3.1 of the
spec. The `Path` preference payload is irrelevant to every claim and is
dropped. -/
inductive FlowBuiltinType : Type where
  | Length | Color | Dir | TextSize | TextLang | TextRegion | TextFont
  | Stroke | Margin | Inset | Outset | Radius | Path | Float | Args
  deriving DecidableEq, Repr

/-- Binary operators (`typst::syntax::ast::BinOp`), kept abstractly: the
checker stores them in `FlowType::Binary` without inspecting them further
after `check_binary` dispatch. -/
abbrev BinOp := Nat

/-- Unary operator tags of `FlowUnaryType` (`Pos`, `Neg`, `Not`,
`Context`); the wrapped type is carried next to the tag. -/
inductive FlowUnaryOp : Type where
  | Pos | Neg | Not | Context
  deriving DecidableEq, Repr

/-- The type lattice `FlowType` of `analysis/ty/def.rs`. Compared to the
Rust declaration, the auxiliary records (`FlowSignature`, `FlowRecord`,
`FlowArgs`, `FlowVarStore`, `FlowAt`, `FlowUnaryType`, `FlowBinaryType`,
`FlowIfType`) are inlined into the constructors as tuples/lists, which is
the standard shallow embedding of mutually boxed Rust structs. -/
inductive FlowType : Type where
  | Clause
  | Undef
  | Content
  | Any
  | None
  | Infer
  | FlowNone
  | Auto
  | Boolean (b : Option Bool)
  | Builtin (b : FlowBuiltinType)
  | Value (v : ValueRepr) (s : Span)
  | ValueDoc (v : ValueRepr) (doc : String)
  | Element (e : Nat)
  | Var (id : DefId) (name : String)
  | Func (pos : List FlowType) (named : List (String × FlowType))
      (rest : Option FlowType) (ret : FlowType)
  | Dict (fields : List (String × FlowType × Span))
  | Array (elem : FlowType)
  | Tuple (elems : List FlowType)
  | With (callee : FlowType)
      (applied : List (List FlowType × List (String × FlowType)))
  | Args (pos : List FlowType) (named : List (String × FlowType))
  | At (target : FlowType) (field : String)
  | Unary (op : FlowUnaryOp) (t : FlowType)
  | Binary (op : BinOp) (lhs rhs : FlowType)
  | If (cond thenTy elseTy : FlowType)
  | Union (ts : List FlowType)
  | Let (lbs ubs : List FlowType)

/-- An actual-argument bundle (`FlowArgs`): positional list and named
list. -/
abbrev FlowArgs := List FlowType × List (String × FlowType)

/-- `FlowArgs::start_match`: the positional actuals. -/
def FlowArgs.start_match (a : FlowArgs) : List FlowType := a.1

/-- The bound store of an inference variable (`FlowVarStore`). -/
structure FlowVarStore : Type where
  lbs : List FlowType
  ubs : List FlowType

/-- One inference variable (`FlowVar`): its debug name together with its
store. The `FlowVarKind::Weak` wrapper is the only kind the program ever
constructs, so it is elided. -/
structure FlowVarRec : Type where
  name : String
  store : FlowVarStore

/-- The `vars` table of `TypeCheckInfo`, as an association list keyed by
`DefId`. -/
abbrev VarMap := List (DefId × FlowVarRec)

/-- Association-list lookup, the embedding of `HashMap::get`. -/
def lookupVar (vars : VarMap) (id : DefId) : Option FlowVarRec :=
  match vars with
  | [] => Option.none
  | (k, r) :: rest => if k = id then some r else lookupVar rest id

/-- Replace the store of `id` (first binding), the embedding of mutating
through `HashMap::get_mut`. Leaves the map unchanged if `id` is unbound. -/
def updateVar (vars : VarMap) (id : DefId) (r : FlowVarRec) : VarMap :=
  match vars with
  | [] => []
  | (k, r0) :: rest =>
    if k = id then (k, r) :: rest else (k, r0) :: updateVar rest id r

/-- The `mapping` table of `TypeCheckInfo` (span → type), as an
association list. -/
abbrev Mapping := List (Span × FlowType)

/-- `HashMap::get` on `mapping`. -/
def mapLookup (m : Mapping) (s : Span) : Option FlowType :=
  match m with
  | [] => Option.none
  | (k, t) :: rest => if k = s then some t else mapLookup rest s

/-- `HashMap::insert` on `mapping`: replaces the first binding of the
span, or appends a new one. -/
def mapInsert (m : Mapping) (s : Span) (t : FlowType) : Mapping :=
  match m with
  | [] => [(s, t)]
  | (k, t0) :: rest =>
    if k = s then (k, t) :: rest else (k, t0) :: mapInsert rest s t

/-- `mapping.entry(s).or_insert(t)`: inserts only when the span is
unbound. -/
def mapOrInsert (m : Mapping) (s : Span) (t : FlowType) : Mapping :=
  match mapLookup m s with
  | some _ => m
  | Option.none => m ++ [(s, t)]

/-- `FlowType::is_dict`. -/
def FlowType.is_dict : FlowType → Bool
  | .Dict _ => true
  | _ => false

/-- Discriminator: is this term a `Var`? (used to state which `constrain`
arm fires). -/
def FlowType.isVarB : FlowType → Bool
  | .Var _ _ => true
  | _ => false

/-- Discriminator: is this term a `Let`? -/
def FlowType.isLetB : FlowType → Bool
  | .Let _ _ => true
  | _ => false

instance : Inhabited FlowType := ⟨.Any⟩

/-- `FlowType::from_types` (`def.rs`): empty → `Any`, singleton → the
element, otherwise `Union`. -/
def FlowType.from_types (e : List FlowType) : FlowType :=
  if e.length = 0 then .Any
  else if e.length = 1 then e.headI
  else .Union e

/-! ## The Joiner (`ty.rs`, `struct Joiner`) -/

/-- The `Joiner` aggregation state: the `break_or_continue_or_return`
poison flag, the `definite` slot and the `possibles` side list. -/
structure Joiner : Type where
  break_or_continue_or_return : Bool
  definite : FlowType
  possibles : List FlowType

/-- `Joiner::default()`. -/
def Joiner.default : Joiner :=
  { break_or_continue_or_return := false
    definite := .None
    possibles := [] }

/-- `Joiner::join`, arm for arm in source order (the match in the Rust
source is sequential, so arm order is semantic). -/
def Joiner.join (j : Joiner) (child : FlowType) : Joiner :=
  if j.break_or_continue_or_return then j
  else
    match child, j.definite with
    | .Clause, _ => j
    | .Undef, _ => j
    | .Any, _ => j
    | _, .Any => j
    | .Infer, _ => j
    | .None, _ => j
    | .FlowNone, _ => j
    | .Content, .Content => j
    | .Content, .None => { j with definite := .Content }
    | .Content, _ => { j with definite := .Undef }
    | .Var id name, _ => { j with possibles := j.possibles ++ [.Var id name] }
    | .Array e, .None => { j with definite := .Array e }
    | .Array _, _ => { j with definite := .Undef }
    | .Tuple e, .None => { j with definite := .Tuple e }
    | .Tuple _, _ => { j with definite := .Undef }
    | .Auto, .None => { j with definite := .Auto }
    | .Auto, _ => { j with definite := .Undef }
    | .Builtin b, .None => { j with definite := .Builtin b }
    | .Builtin _, _ => { j with definite := .Undef }
    | .Value v s, .None => { j with definite := .Value v s }
    | .Value _ _, _ => { j with definite := .Undef }
    | .ValueDoc v d, .None => { j with definite := .ValueDoc v d }
    | .ValueDoc _ _, _ => { j with definite := .Undef }
    | .Element e, .None => { j with definite := .Element e }
    | .Element _, _ => { j with definite := .Undef }
    | .Func p n r t, .None => { j with definite := .Func p n r t }
    | .Func _ _ _ _, _ => { j with definite := .Undef }
    | .Dict w, .None => { j with definite := .Dict w }
    | .Dict _, _ => { j with definite := .Undef }
    | .With w a, .None => { j with definite := .With w a }
    | .With _ _, _ => { j with definite := .Undef }
    | .Args p n, .None => { j with definite := .Args p n }
    | .Args _ _, _ => { j with definite := .Undef }
    | .At w f, .None => { j with definite := .At w f }
    | .At _ _, _ => { j with definite := .Undef }
    | .Unary o w, .None => { j with definite := .Unary o w }
    | .Unary _ _, _ => { j with definite := .Undef }
    | .Binary o l r, .None => { j with definite := .Binary o l r }
    | .Binary _ _ _, _ => { j with definite := .Undef }
    | .If c t e, .None => { j with definite := .If c t e }
    | .If _ _ _, _ => { j with definite := .Undef }
    | .Union w, .None => { j with definite := .Union w }
    | .Union _, _ => { j with definite := .Undef }
    | .Let l u, .None => { j with definite := .Let l u }
    | .Let _ _, _ => { j with definite := .Undef }
    | .Boolean b, .None => { j with definite := .Boolean b }
    | .Boolean _, _ => { j with definite := .Undef }

/-- `Joiner::finalize`. -/
def Joiner.finalize (j : Joiner) : FlowType :=
  if j.possibles.isEmpty then j.definite else .Any

/-! ## The per-node leaf table of `TypeChecker::check_inner` -/

/-- The syntax-node kinds matched by `check_inner`
(`typst::syntax::SyntaxKind`), restricted to the kinds whose arm yields a
type directly; the delegating arms (`Markup`, `FuncCall`, …) recurse into
the walker and are represented by `checkInnerLeaf` answering `none`. -/
inductive SyntaxKind : Type where
  | Markup | Math | Code | CodeBlock | ContentBlock
  | Space | Parbreak
  | Text | Linebreak | Escape | Shorthand | SmartQuote | Raw | RawLang
  | RawDelim | RawTrimmed | Link | Label | Ref | RefMarker | HeadingMarker
  | EnumMarker | ListMarker | TermMarker | MathAlignPoint | MathPrimes
  | Strong | Emph | Heading | ListItem | EnumItem | TermItem | Equation
  | MathDelimited | MathAttach | MathFrac | MathRoot
  | LoopBreak | LoopContinue | FuncReturn | LineComment | BlockComment
  | Error | Eof
  | None | Auto | Break | Continue | Return | Ident | MathIdent
  | Bool | Int | Float | Numeric | Str
  | Parenthesized | Array | Dict | Unary | Binary | FieldAccess
  | FuncCall | Args | Closure | LetBinding | SetRule | ShowRule
  | Contextual | Conditional | WhileLoop | ForLoop | ModuleImport
  | ModuleInclude | Destructuring | DestructAssignment
  | Named | Keyed | Spread | Params | ImportItems | RenamedImportItem
  | Hash | LeftBrace | RightBrace | LeftBracket | RightBracket
  | LeftParen | RightParen | Comma | Semicolon | Colon | Star
  | Underscore | Dollar | Plus | Minus | Slash | Hat | Prime | Dot
  | Eq | EqEq | ExclEq | Lt | LtEq | Gt | GtEq | PlusEq | HyphEq
  | StarEq | SlashEq | Dots | Arrow | Root | Not | And | Or
  | Let | Set | Show | Context | If | Else | For | In | While
  | Import | Include | As
  deriving DecidableEq, Repr

/-- The non-delegating arms of `TypeChecker::check_inner` (ty.rs lines
118–262): for each syntax kind that yields a `FlowType` without recursing,
the yielded type; `none` for the kinds whose arm re-enters the walker
(mode blocks, idents, literals, containers, calls, …). -/
def checkInnerLeaf : SyntaxKind → Option FlowType
  | .Space => some .None
  | .Parbreak => some .None
  | .Text => some .Content
  | .Linebreak => some .Content
  | .Escape => some .Content
  | .Shorthand => some .Content
  | .SmartQuote => some .Content
  | .Raw => some .Content
  | .RawLang => some .Content
  | .RawDelim => some .Content
  | .RawTrimmed => some .Content
  | .Link => some .Content
  | .Label => some .Content
  | .Ref => some .Content
  | .RefMarker => some .Content
  | .HeadingMarker => some .Content
  | .EnumMarker => some .Content
  | .ListMarker => some .Content
  | .TermMarker => some .Content
  | .MathAlignPoint => some .Content
  | .MathPrimes => some .Content
  | .LoopBreak => some .None
  | .LoopContinue => some .None
  | .FuncReturn => some .None
  | .LineComment => some .None
  | .BlockComment => some .None
  | .Error => some .None
  | .Eof => some .None
  | .None => some .None
  | .Auto => some .Auto
  | .Break => some .FlowNone
  | .Continue => some .FlowNone
  | .Return => some .FlowNone
  | .Named => some .Clause
  | .Keyed => some .Clause
  | .Spread => some .Clause
  | .Params => some .Clause
  | .ImportItems => some .Clause
  | .RenamedImportItem => some .Clause
  | .Hash => some .Clause
  | .LeftBrace => some .Clause
  | .RightBrace => some .Clause
  | .LeftBracket => some .Clause
  | .RightBracket => some .Clause
  | .LeftParen => some .Clause
  | .RightParen => some .Clause
  | .Comma => some .Clause
  | .Semicolon => some .Clause
  | .Colon => some .Clause
  | .Star => some .Clause
  | .Underscore => some .Clause
  | .Dollar => some .Clause
  | .Plus => some .Clause
  | .Minus => some .Clause
  | .Slash => some .Clause
  | .Hat => some .Clause
  | .Prime => some .Clause
  | .Dot => some .Clause
  | .Eq => some .Clause
  | .EqEq => some .Clause
  | .ExclEq => some .Clause
  | .Lt => some .Clause
  | .LtEq => some .Clause
  | .Gt => some .Clause
  | .GtEq => some .Clause
  | .PlusEq => some .Clause
  | .HyphEq => some .Clause
  | .StarEq => some .Clause
  | .SlashEq => some .Clause
  | .Dots => some .Clause
  | .Arrow => some .Clause
  | .Root => some .Clause
  | .Not => some .Clause
  | .And => some .Clause
  | .Or => some .Clause
  | .Let => some .Clause
  | .Set => some .Clause
  | .Show => some .Clause
  | .Context => some .Clause
  | .If => some .Clause
  | .Else => some .Clause
  | .For => some .Clause
  | .In => some .Clause
  | .While => some .Clause
  | .Import => some .Clause
  | .Include => some .Clause
  | .As => some .Clause
  | _ => Option.none

/-- The candidate-list resolution at the end of `check_func_call` (ty.rs
lines 433–441): one candidate is returned directly, no candidate gives
`Any`, several give `Union`. -/
def funcCallFromCandidates (candidates : List FlowType) : FlowType :=
  if candidates.length = 1 then candidates.headI
  else if candidates.isEmpty then .Any
  else .Union candidates

/-! ## Effectful results

Rust panics (`unwrap` on a missing map entry) and exhaustion of the
explicit recursion fuel are distinguished: a panic is a terminating
outcome of the source program, running out of fuel is an artifact of the
embedding. -/

/-- Result of an embedded stateful operation. -/
inductive TRes (α : Type) : Type where
  | ok (a : α)
  | panicked
  | fuelOut

/-- Is the result `ok`? -/
def TRes.isOk : TRes α → Bool
  | .ok _ => true
  | _ => false

/-- Sequencing on `TRes`. -/
def tresBind (r : TRes α) (f : α → TRes β) : TRes β :=
  match r with
  | .ok a => f a
  | .panicked => .panicked
  | .fuelOut => .fuelOut

/-- Fold a fallible state-transformer over a list (the embedding of Rust
`for` loops that mutate `self`). -/
def tresFold (f : σ → α → TRes σ) : σ → List α → TRes σ
  | s, [] => .ok s
  | s, a :: rest =>
    match f s a with
    | .ok s2 => tresFold f s2 rest
    | .panicked => .panicked
    | .fuelOut => .fuelOut

/-- Map a fallible state-threading transformer over a list (the embedding
of Rust `iter().map(...).collect()` where the closure mutates `self`). -/
def tresMapM (f : σ → α → TRes (β × σ)) : σ → List α → TRes (List β × σ)
  | s, [] => .ok ([], s)
  | s, a :: rest =>
    match f s a with
    | .ok (b, s2) =>
      match tresMapM f s2 rest with
      | .ok (bs, s3) => .ok (b :: bs, s3)
      | .panicked => .panicked
      | .fuelOut => .fuelOut
    | .panicked => .panicked
    | .fuelOut => .fuelOut

/-- `tresMapM` specialised to name–type pairs, transforming the second
component (the embedding of `named.iter().map(|(n, p)| (n, f(p)))`). -/
def tresMapPairM (f : σ → FlowType → TRes (FlowType × σ)) :
    σ → List (String × FlowType) → TRes (List (String × FlowType) × σ)
  | s, [] => .ok ([], s)
  | s, (n, t) :: rest =>
    match f s t with
    | .ok (t2, s2) =>
      match tresMapPairM f s2 rest with
      | .ok (ts, s3) => .ok ((n, t2) :: ts, s3)
      | .panicked => .panicked
      | .fuelOut => .fuelOut
    | .panicked => .panicked
    | .fuelOut => .fuelOut

/-- `tresMapM` specialised to dict fields, transforming the type
component and keeping name and span. -/
def tresMapFieldM (f : σ → FlowType → TRes (FlowType × σ)) :
    σ → List (String × FlowType × Span) → TRes (List (String × FlowType × Span) × σ)
  | s, [] => .ok ([], s)
  | s, (n, t, sp) :: rest =>
    match f s t with
    | .ok (t2, s2) =>
      match tresMapFieldM f s2 rest with
      | .ok (fs, s3) => .ok ((n, t2, sp) :: fs, s3)
      | .panicked => .panicked
      | .fuelOut => .fuelOut
    | .panicked => .panicked
    | .fuelOut => .fuelOut

/-- Stateless fallible map over the second components of name–type
pairs. -/
def tresMapSndList (f : FlowType → TRes FlowType) :
    List (String × FlowType) → TRes (List (String × FlowType))
  | [] => .ok []
  | (n, t) :: rest =>
    match f t with
    | .ok t2 =>
      match tresMapSndList f rest with
      | .ok ts => .ok ((n, t2) :: ts)
      | .panicked => .panicked
      | .fuelOut => .fuelOut
    | .panicked => .panicked
    | .fuelOut => .fuelOut

/-! ## Mutable checker state -/

/-- The mutable part of `TypeCheckInfo` that the walker writes: the
variable table and the span→type mapping. -/
structure TCState : Type where
  vars : VarMap
  mapping : Mapping

/-- `FlowVar::ever_be`: push a lower bound. -/
def FlowVarStore.ever_be (w : FlowVarStore) (exp : FlowType) : FlowVarStore :=
  { w with lbs := w.lbs ++ [exp] }

/-- `FlowVar::as_strong`: identical to `ever_be` in the source (the
`Strong` kind is commented out). -/
def FlowVarStore.as_strong (w : FlowVarStore) (exp : FlowType) : FlowVarStore :=
  { w with lbs := w.lbs ++ [exp] }

/-- `TypeChecker::get_var` (ty.rs lines 650–677), after the external
def-use resolution produced `defId`: create the variable on first
encounter (empty bounds), then record `span ↦ Var` in `mapping` with a
plain insert, and hand back the `Var` reference. -/
def get_var (s : TCState) (defId : DefId) (name : String) (span : Span) :
    TCState × FlowType :=
  let vars2 : VarMap :=
    match lookupVar s.vars defId with
    | some _ => s.vars
    | Option.none => s.vars ++ [(defId, ⟨name, ⟨[], []⟩⟩)]
  let ref : FlowType :=
    match lookupVar vars2 defId with
    | some r => .Var defId r.name
    | Option.none => .Var defId name
  (⟨vars2, mapInsert s.mapping span ref⟩, ref)

/-! ## The built-in dict shapes (Catalog) -/

/-- A dict field, `(name, type, defining span)`. -/
abbrev Field := String × FlowType × Span

/-- Modelled from the spec: the canonical dict shape behind
`Builtin(Stroke)` (`FLOW_STROKE_DICT`, declared in the missing
`builtin.rs`); §4.5 and scenario 3 of the spec name `paint ↦ Color` and
`thickness ↦ Length`. -/
def FLOW_STROKE_DICT : List Field :=
  [("paint", .Builtin .Color, Span.detached),
   ("thickness", .Builtin .Length, Span.detached)]

/-- Modelled from the spec: the canonical dict shape behind
`Builtin(Margin)` (`FLOW_MARGIN_DICT`, missing `builtin.rs`): length
fields per side. -/
def FLOW_MARGIN_DICT : List Field :=
  [("top", .Builtin .Length, Span.detached),
   ("right", .Builtin .Length, Span.detached),
   ("bottom", .Builtin .Length, Span.detached),
   ("left", .Builtin .Length, Span.detached)]

/-- Modelled from the spec: the canonical dict shape behind
`Builtin(Inset)` (`FLOW_INSET_DICT`, missing `builtin.rs`). -/
def FLOW_INSET_DICT : List Field :=
  [("top", .Builtin .Length, Span.detached),
   ("right", .Builtin .Length, Span.detached),
   ("bottom", .Builtin .Length, Span.detached),
   ("left", .Builtin .Length, Span.detached)]

/-- Modelled from the spec: the canonical dict shape behind
`Builtin(Outset)` (`FLOW_OUTSET_DICT`, missing `builtin.rs`). -/
def FLOW_OUTSET_DICT : List Field :=
  [("top", .Builtin .Length, Span.detached),
   ("right", .Builtin .Length, Span.detached),
   ("bottom", .Builtin .Length, Span.detached),
   ("left", .Builtin .Length, Span.detached)]

/-- Modelled from the spec: the canonical dict shape behind
`Builtin(Radius)` (`FLOW_RADIUS_DICT`, missing `builtin.rs`). -/
def FLOW_RADIUS_DICT : List Field :=
  [("top-left", .Builtin .Length, Span.detached),
   ("top-right", .Builtin .Length, Span.detached),
   ("bottom-right", .Builtin .Length, Span.detached),
   ("bottom-left", .Builtin .Length, Span.detached)]

/-! ## Record key intersection (`FlowRecord::intersect_keys`) -/

/-- Iterate `a`, pairing each field index with the position of the first
same-named field of `b` (the inner loop of
`intersect_keys_enumerate`). -/
def intersectIdx (a b : List Field) : List (Nat × Nat) :=
  a.enum.filterMap fun p =>
    (b.findIdx? fun q => q.1 == p.2.1).map fun j => (p.1, j)

/-- `FlowRecord::intersect_keys_enumerate`, with the swap size
optimization of the source: iterate the longer record, search the
shorter, then un-swap the index pairs. -/
def intersect_keys_enumerate (l r : List Field) : List (Nat × Nat) :=
  if l.length < r.length then (intersectIdx r l).map fun p => (p.2, p.1)
  else intersectIdx l r

/-- `FlowRecord::intersect_keys`: the pairs of same-named fields. -/
def intersect_keys (l r : List Field) : List (Field × Field) :=
  (intersect_keys_enumerate l r).filterMap fun p =>
    (l.get? p.1).bind fun lf => (r.get? p.2).map fun rf => (lf, rf)

/-! ## `TypeChecker::constrain` (ty.rs lines 797–934) -/

/-- The subtype poster `constrain(lhs ⪯ rhs)`, arm for arm in source
order. Fuel only limits recursion depth; the `unwrap()` of a missing
variable in the two `Var` arms is `panicked`. -/
def constrainF : Nat → TCState → FlowType → FlowType → TRes TCState
  | 0, _, _, _ => .fuelOut
  | fuel + 1, s, lhs, rhs =>
    match lhs, rhs with
    | .Var v _, .Var w _ =>
      -- same id: early return; different ids: merging is a todo, no-op
      if v = w then .ok s else .ok s
    | .Var v _, rhs2 =>
      match lookupVar s.vars v with
      | some r =>
        let r2 := { r with store := { r.store with ubs := r.store.ubs ++ [rhs2] } }
        .ok { s with vars := updateVar s.vars v r2 }
      | Option.none => .panicked
    | lhs2, .Var v _ =>
      match lookupVar s.vars v with
      | some r =>
        let r2 := { r with store := { r.store with lbs := r.store.lbs ++ [lhs2] } }
        .ok { s with vars := updateVar s.vars v r2 }
      | Option.none => .panicked
    | .Union l, rhs2 => tresFold (fun s2 e => constrainF fuel s2 e rhs2) s l
    | lhs2, .Union l => tresFold (fun s2 e => constrainF fuel s2 lhs2 e) s l
    | lhs2, .Builtin .Stroke =>
      if lhs2.is_dict then constrainF fuel s lhs2 (.Dict FLOW_STROKE_DICT)
      else .ok s
    | .Builtin .Stroke, rhs2 =>
      if rhs2.is_dict then constrainF fuel s (.Dict FLOW_STROKE_DICT) rhs2
      else .ok s
    | lhs2, .Builtin .Margin =>
      if lhs2.is_dict then constrainF fuel s lhs2 (.Dict FLOW_MARGIN_DICT)
      else .ok s
    | .Builtin .Margin, rhs2 =>
      if rhs2.is_dict then constrainF fuel s (.Dict FLOW_MARGIN_DICT) rhs2
      else .ok s
    | lhs2, .Builtin .Inset =>
      if lhs2.is_dict then constrainF fuel s lhs2 (.Dict FLOW_INSET_DICT)
      else .ok s
    | .Builtin .Inset, rhs2 =>
      if rhs2.is_dict then constrainF fuel s (.Dict FLOW_INSET_DICT) rhs2
      else .ok s
    | lhs2, .Builtin .Outset =>
      if lhs2.is_dict then constrainF fuel s lhs2 (.Dict FLOW_OUTSET_DICT)
      else .ok s
    | .Builtin .Outset, rhs2 =>
      if rhs2.is_dict then constrainF fuel s (.Dict FLOW_OUTSET_DICT) rhs2
      else .ok s
    | lhs2, .Builtin .Radius =>
      if lhs2.is_dict then constrainF fuel s lhs2 (.Dict FLOW_RADIUS_DICT)
      else .ok s
    | .Builtin .Radius, rhs2 =>
      if rhs2.is_dict then constrainF fuel s (.Dict FLOW_RADIUS_DICT) rhs2
      else .ok s
    | .Dict lf, .Dict rf =>
      tresFold
        (fun s2 pr =>
          match constrainF fuel s2 pr.1.2.1 pr.2.2.1 with
          | .ok s3 =>
            let s4 :=
              if (pr.1.2.2 : Span).isDetached then s3
              else { s3 with mapping := mapOrInsert s3.mapping pr.1.2.2 pr.2.2.1 }
            let s5 :=
              if (pr.2.2.2 : Span).isDetached then s4
              else { s4 with mapping := mapOrInsert s4.mapping pr.2.2.2 pr.1.2.1 }
            .ok s5
          | .panicked => .panicked
          | .fuelOut => .fuelOut)
        s (intersect_keys lf rf)
    | .Value _ sp, rhs2 =>
      if (sp : Span).isDetached then .ok s
      else .ok { s with mapping := mapOrInsert s.mapping sp rhs2 }
    | lhs2, .Value _ sp =>
      if (sp : Span).isDetached then .ok s
      else .ok { s with mapping := mapOrInsert s.mapping sp lhs2 }
    | _, _ => .ok s

/-! ## `TypeChecker::check_primary_type` (ty.rs lines 936–980) -/

/-- Resolve a type to its primary form: a variable yields its first upper
bound, else first lower bound, else `Any` (no recursion into the bound);
an `At` projection recurses into its target; everything else is
returned unchanged. The variable lookup is the source's `unwrap()`. -/
def check_primary_type (vars : VarMap) : FlowType → TRes FlowType
  | .Var v _ =>
    match lookupVar vars v with
    | some r =>
      if r.store.ubs.isEmpty then
        if r.store.lbs.isEmpty then .ok .Any
        else .ok r.store.lbs.headI
      else .ok r.store.ubs.headI
    | Option.none => .panicked
  | .At target _ => check_primary_type vars target
  | e => .ok e

/-! ## `TypeChecker::check_apply_runtime` (ty.rs lines 1025–1083) -/

/-- A runtime-analyzed signature (`analyze_dyn_signature(...).primary()`),
reduced to the fields the checker reads: per positional parameter the
optional `infer_type`, the named parameter table, and the optional return
type. -/
structure RuntimeSig : Type where
  pos : List (Option FlowType)
  named : List (String × Option FlowType)
  ret_ty : Option FlowType

/-- One argument of the originating `ast::Args` syntax node, reduced to
the spans the checker reads. -/
inductive SynArg : Type where
  | pos (span : Span)
  | named (name : String) (span : Span) (exprSpan : Span)
  | spread

/-- The positional-argument spans of the syntax args, in order. -/
def synPosSpans (l : List SynArg) : List Span :=
  l.filterMap fun a =>
    match a with
    | .pos sp => some sp
    | _ => Option.none

/-- The first named syntax argument with the given name, as
`(span, exprSpan)`. -/
def findSynNamed (l : List SynArg) (name : String) : Option (Span × Span) :=
  match l with
  | [] => Option.none
  | .named n sp esp :: rest =>
    if n == name then some (sp, esp) else findSynNamed rest name
  | _ :: rest => findSynNamed rest name

/-- The positional loop of `check_apply_runtime`: constrain each
positional actual against the declared type (`infer_type` or `Any`;
`Any` past the end), and record the declared type at the syntax arg's
span with a plain (overwriting) `mapping.insert`. -/
def runtimePosLoop (fuel : Nat) :
    TCState → List FlowType → List (Option FlowType) → List Span → TRes TCState
  | s, [], _, _ => .ok s
  | s, a :: rest, sigPos, synPos =>
    let pos_ty : FlowType :=
      match sigPos.head? with
      | some (some t) => t
      | some Option.none => .Any
      | Option.none => .Any
    match constrainF fuel s a pos_ty with
    | .ok s2 =>
      let s3 :=
        match synPos.head? with
        | some sp => { s2 with mapping := mapInsert s2.mapping sp pos_ty }
        | Option.none => s2
      runtimePosLoop fuel s3 rest sigPos.tail synPos.tail
    | .panicked => .panicked
    | .fuelOut => .fuelOut

/-- The named loop of `check_apply_runtime`: for each named actual whose
declared type is known, constrain it and record the declared type at both
the named item's span and its inner expression's span, again with plain
(overwriting) `mapping.insert`s. -/
def runtimeNamedLoop (fuel : Nat) :
    TCState → List (String × FlowType) → List (String × Option FlowType) →
    List SynArg → TRes TCState
  | s, [], _, _ => .ok s
  | s, (name, named_in) :: rest, sigNamed, synArgs =>
    match ((sigNamed.find? fun p => p.1 == name).map (·.2)).join with
    | some named_ty =>
      match constrainF fuel s named_in named_ty with
      | .ok s2 =>
        let s3 :=
          match findSynNamed synArgs name with
          | some (sp, esp) =>
            { s2 with mapping :=
                mapInsert (mapInsert s2.mapping sp named_ty) esp named_ty }
          | Option.none => s2
        runtimeNamedLoop fuel s3 rest sigNamed synArgs
      | .panicked => .panicked
      | .fuelOut => .fuelOut
    | Option.none => runtimeNamedLoop fuel s rest sigNamed synArgs

/-- `TypeChecker::check_apply_runtime`: run both loops and push the
declared return type (or `Any`) as the candidate. -/
def check_apply_runtime (fuel : Nat) (s : TCState) (sig : RuntimeSig)
    (args : FlowArgs) (syntaxArgs : List SynArg) : TRes (TCState × FlowType) :=
  match runtimePosLoop fuel s args.start_match sig.pos (synPosSpans syntaxArgs) with
  | .ok s2 =>
    match runtimeNamedLoop fuel s2 args.2 sig.named syntaxArgs with
    | .ok s3 => .ok (s3, sig.ret_ty.getD .Any)
    | .panicked => .panicked
    | .fuelOut => .fuelOut
  | .panicked => .panicked
  | .fuelOut => .fuelOut

/-! ## The Simplifier (`TypeSimplifier`, ty.rs lines 1128–1412) -/

/-- The per-variable canonicalization memo `cano_local_cache`, keyed by
`(DefId, principal)` exactly as in the source (the key carries the
`principal` flag of the simplifier, not the current polarity). -/
abbrev Memo := List ((DefId × Bool) × FlowType)

/-- `HashMap::get` on the memo. -/
def memoLookup (m : Memo) (k : DefId × Bool) : Option FlowType :=
  match m with
  | [] => Option.none
  | (k0, t) :: rest => if k0 = k then some t else memoLookup rest k

/-- `HashMap::insert` on the memo: replace the first binding or append. -/
def memoInsert (m : Memo) (k : DefId × Bool) (t : FlowType) : Memo :=
  match m with
  | [] => [(k, t)]
  | (k0, t0) :: rest =>
    if k0 = k then (k0, t) :: rest else (k0, t0) :: memoInsert rest k t

/-- `HashSet::insert` on the polarity scratch sets. -/
def setInsert (l : List DefId) (id : DefId) : List DefId :=
  if l.contains id then l else l ++ [id]

/-- `TypeSimplifier::analyze` (ty.rs lines 1160–1264): record each
variable occurrence in the positive or negative scratch set and recurse —
into lower bounds when positive, upper bounds when negative, and
structurally otherwise (function parameters and returns invert/keep
polarity as in the source; dict fields keep polarity here; `Args` named
entries and `With` named entries are skipped, exactly as in the source).
There is no memoization in this phase: a variable is re-entered every
time it is met. The state is `(positives, negatives)`. -/
def analyzeF (fuel : Nat) (vars : VarMap) :
    List DefId × List DefId → FlowType → Bool → TRes (List DefId × List DefId)
  | st, ty, pol =>
    match fuel with
    | 0 => .fuelOut
    | fuel + 1 =>
      match ty with
      | .Var v _ =>
        match lookupVar vars v with
        | Option.none => .panicked
        | some r =>
          let st2 := if pol then (setInsert st.1 v, st.2) else (st.1, setInsert st.2 v)
          if pol then
            tresFold (fun st3 lb => analyzeF fuel vars st3 lb pol) st2 r.store.lbs
          else
            tresFold (fun st3 ub => analyzeF fuel vars st3 ub pol) st2 r.store.ubs
      | .Func pos named rest ret =>
        match tresFold (fun st2 p => analyzeF fuel vars st2 p (!pol)) st pos with
        | .ok st2 =>
          match tresFold (fun st3 p => analyzeF fuel vars st3 p.2 (!pol)) st2 named with
          | .ok st3 =>
            match
              (match rest with
               | some r => analyzeF fuel vars st3 r (!pol)
               | Option.none => .ok st3) with
            | .ok st4 => analyzeF fuel vars st4 ret pol
            | .panicked => .panicked
            | .fuelOut => .fuelOut
          | .panicked => .panicked
          | .fuelOut => .fuelOut
        | .panicked => .panicked
        | .fuelOut => .fuelOut
      | .Dict fields =>
        tresFold (fun st2 f => analyzeF fuel vars st2 f.2.1 pol) st fields
      | .Tuple l => tresFold (fun st2 e => analyzeF fuel vars st2 e pol) st l
      | .Array e => analyzeF fuel vars st e pol
      | .With w applied =>
        match analyzeF fuel vars st w pol with
        | .ok st2 =>
          tresFold
            (fun st3 m => tresFold (fun st4 arg => analyzeF fuel vars st4 arg pol) st3 m.1)
            st2 applied
        | .panicked => .panicked
        | .fuelOut => .fuelOut
      | .Args pos _named =>
        tresFold (fun st2 a => analyzeF fuel vars st2 a pol) st pos
      | .Unary _ t => analyzeF fuel vars st t pol
      | .Binary _ l r =>
        match analyzeF fuel vars st l pol with
        | .ok st2 => analyzeF fuel vars st2 r pol
        | .panicked => .panicked
        | .fuelOut => .fuelOut
      | .If c t e =>
        match analyzeF fuel vars st c pol with
        | .ok st2 =>
          match analyzeF fuel vars st2 t pol with
          | .ok st3 => analyzeF fuel vars st3 e pol
          | .panicked => .panicked
          | .fuelOut => .fuelOut
        | .panicked => .panicked
        | .fuelOut => .fuelOut
      | .Union l => tresFold (fun st2 e => analyzeF fuel vars st2 e pol) st l
      | .At t _ => analyzeF fuel vars st t pol
      | .Let lbs ubs =>
        match tresFold (fun st2 lb => analyzeF fuel vars st2 lb (!pol)) st lbs with
        | .ok st2 => tresFold (fun st3 ub => analyzeF fuel vars st3 ub pol) st2 ubs
        | .panicked => .panicked
        | .fuelOut => .fuelOut
      | _ => .ok st

/-- Read-only context of `TypeSimplifier::transform`: the `principal`
flag, the variable table and the polarity sets computed by the analyze
phase. -/
structure SimpCtx : Type where
  principal : Bool
  vars : VarMap
  positives : List DefId
  negatives : List DefId

/-- `TypeSimplifier::transform` (ty.rs lines 1266–1411). The Var case
first consults the memo, then seeds it with `Any` *before* recursing into
the bounds; the single-lower-bound and no-bound early returns leave the
seeded `Any` in the memo (the source `return`s before the final insert),
otherwise the seed is replaced by the built `Let`. `Unary`, `Binary`,
`If` and `At` subtrees are cloned unchanged, and `Let` collapses to
`Any`, exactly as in the source. -/
def transformF (fuel : Nat) (c : SimpCtx) :
    Memo → FlowType → Bool → TRes (FlowType × Memo)
  | memo, ty, pol =>
    match fuel with
    | 0 => .fuelOut
    | fuel + 1 =>
      match ty with
      | .Var v _ =>
        match memoLookup memo (v, c.principal) with
        | some cano => .ok (cano, memo)
        | Option.none =>
          let memo1 := memoInsert memo (v, c.principal) .Any
          match lookupVar c.vars v with
          | Option.none => .panicked
          | some r =>
            let doLbs := !c.principal || (pol && !(c.negatives.contains v))
            let doUbs := !c.principal || (!pol && !(c.positives.contains v))
            match
              (if doLbs then
                tresMapM (fun m lb => transformF fuel c m lb pol) memo1 r.store.lbs
               else .ok ([], memo1)) with
            | .ok (lbs2, m2) =>
              match
                (if doUbs then
                  tresMapM (fun m ub => transformF fuel c m ub (!pol)) m2 r.store.ubs
                 else .ok ([], m2)) with
              | .ok (ubs2, m3) =>
                if ubs2.isEmpty then
                  if lbs2.length = 1 then .ok (lbs2.headI, m3)
                  else if lbs2.isEmpty then .ok (.Any, m3)
                  else
                    let res := FlowType.Let lbs2 ubs2
                    .ok (res, memoInsert m3 (v, c.principal) res)
                else
                  let res := FlowType.Let lbs2 ubs2
                  .ok (res, memoInsert m3 (v, c.principal) res)
              | .panicked => .panicked
              | .fuelOut => .fuelOut
            | .panicked => .panicked
            | .fuelOut => .fuelOut
      | .Func pos named rest ret =>
        match tresMapM (fun m p => transformF fuel c m p (!pol)) memo pos with
        | .ok (pos2, m2) =>
          match
            tresMapPairM (fun m p => transformF fuel c m p (!pol)) m2 named with
          | .ok (named2, m4) =>
            let restRes : TRes (Option FlowType × Memo) :=
              match rest with
              | some rt =>
                match transformF fuel c m4 rt (!pol) with
                | .ok (t, m5) => .ok (some t, m5)
                | .panicked => .panicked
                | .fuelOut => .fuelOut
              | Option.none => .ok (Option.none, m4)
            match restRes with
            | .ok (rest2, m6) =>
              match transformF fuel c m6 ret pol with
              | .ok (ret2, m7) => .ok (.Func pos2 named2 rest2 ret2, m7)
              | .panicked => .panicked
              | .fuelOut => .fuelOut
            | .panicked => .panicked
            | .fuelOut => .fuelOut
          | .panicked => .panicked
          | .fuelOut => .fuelOut
        | .panicked => .panicked
        | .fuelOut => .fuelOut
      | .Dict fields =>
        match
          tresMapFieldM (fun m t => transformF fuel c m t (!pol)) memo fields with
        | .ok (fields2, m2) => .ok (.Dict fields2, m2)
        | .panicked => .panicked
        | .fuelOut => .fuelOut
      | .Tuple l =>
        match tresMapM (fun m e => transformF fuel c m e pol) memo l with
        | .ok (l2, m2) => .ok (.Tuple l2, m2)
        | .panicked => .panicked
        | .fuelOut => .fuelOut
      | .Array e =>
        match transformF fuel c memo e pol with
        | .ok (e2, m2) => .ok (.Array e2, m2)
        | .panicked => .panicked
        | .fuelOut => .fuelOut
      | .With w applied =>
        match transformF fuel c memo w pol with
        | .ok (w2, m2) => .ok (.With w2 applied, m2)
        | .panicked => .panicked
        | .fuelOut => .fuelOut
      | .Args pos named =>
        match tresMapM (fun m a => transformF fuel c m a pol) memo pos with
        | .ok (pos2, m2) =>
          match
            tresMapPairM (fun m p => transformF fuel c m p pol) m2 named with
          | .ok (named2, m4) => .ok (.Args pos2 named2, m4)
          | .panicked => .panicked
          | .fuelOut => .fuelOut
        | .panicked => .panicked
        | .fuelOut => .fuelOut
      | .Unary op t => .ok (.Unary op t, memo)
      | .Binary op l r => .ok (.Binary op l r, memo)
      | .If c0 t e => .ok (.If c0 t e, memo)
      | .Union l =>
        match tresMapM (fun m e => transformF fuel c m e pol) memo l with
        | .ok (l2, m2) => .ok (.Union l2, m2)
        | .panicked => .panicked
        | .fuelOut => .fuelOut
      | .At t f => .ok (.At t f, memo)
      | .Let _ _ => .ok (.Any, memo)
      | other => .ok (other, memo)

/-- `TypeSimplifier::simplify` (ty.rs lines 1148–1158) with the scratch
state already cleared by the caller: analyze at positive polarity, then
transform at positive polarity. The always-empty global `cano_cache`
lookup is omitted (nothing in the program inserts into it). -/
def simplifyWorker (fuel : Nat) (principal : Bool) (vars : VarMap)
    (ty : FlowType) : TRes FlowType :=
  match analyzeF fuel vars ([], []) ty true with
  | .ok psns =>
    match transformF fuel ⟨principal, vars, psns.1, psns.2⟩ [] ty true with
    | .ok (r, _) => .ok r
    | .panicked => .panicked
    | .fuelOut => .fuelOut
  | .panicked => .panicked
  | .fuelOut => .fuelOut

/-- The full `TypeCheckInfo` record: the walker tables plus the
canonicalization store (`cano_local_cache`, `positives`, `negatives`)
that `simplify` owns. -/
structure TypeCheckInfoS : Type where
  vars : VarMap
  mapping : Mapping
  cano_local_cache : Memo
  positives : List DefId
  negatives : List DefId

/-- `TypeCheckInfo::simplify` (ty.rs lines 67–86): clear the local cache
and the two polarity scratch sets, run the worker, and return the updated
record next to the result. The variable table is handed to the worker by
shared reference and the span mapping is not handed to it at all. -/
def TypeCheckInfoS.simplify (info : TypeCheckInfoS) (fuel : Nat)
    (ty : FlowType) (principal : Bool) : TypeCheckInfoS × TRes FlowType :=
  match analyzeF fuel info.vars ([], []) ty true with
  | .ok psns =>
    match transformF fuel ⟨principal, info.vars, psns.1, psns.2⟩ [] ty true with
    | .ok (r, memo) =>
      ({ info with cano_local_cache := memo
                   positives := psns.1
                   negatives := psns.2 }, .ok r)
    | .panicked =>
      ({ info with cano_local_cache := []
                   positives := psns.1
                   negatives := psns.2 }, .panicked)
    | .fuelOut =>
      ({ info with cano_local_cache := []
                   positives := psns.1
                   negatives := psns.2 }, .fuelOut)
  | .panicked =>
    ({ info with cano_local_cache := [], positives := [], negatives := [] },
     .panicked)
  | .fuelOut =>
    ({ info with cano_local_cache := [], positives := [], negatives := [] },
     .fuelOut)

/-! ## Signature extraction (`def.rs` lines 455–510) -/

/-- A function signature (`FlowSignature`). -/
structure FlowSignature : Type where
  pos : List FlowType
  named : List (String × FlowType)
  rest : Option FlowType
  ret : FlowType

/-- Concatenate the outputs of a fallible collector over a list (the
embedding of sequential `for`-loops pushing into a shared `&mut Vec`). -/
def optFoldCat (f : α → Option (List β)) : List α → Option (List β)
  | [] => some []
  | a :: rest =>
    (f a).bind fun l1 => (optFoldCat f rest).map fun l2 => l1 ++ l2

/-- `check_signatures` (def.rs lines 477–510): collect `Func` signatures
from a type; `With` defers to `instantiate_signature` (inlined here at
decremented fuel to keep the recursion single); `Union` concatenates its
arms; a `Var` contributes its upper bounds always and its lower bounds
only when not principal, and silently contributes nothing when absent
from the table. `none` is fuel exhaustion. -/
def check_signatures (fuel : Nat) (vars : VarMap) (principal : Bool) :
    FlowType → Option (List FlowSignature)
  | ty =>
    match fuel with
    | 0 => Option.none
    | fuel + 1 =>
      match ty with
      | .Func pos named rest ret => some [⟨pos, named, rest, ret⟩]
      | .With w applied =>
        -- instantiate_signature: extract from the callee, then drop as
        -- many leading positionals as there are applied argument bundles
        -- (`args.len()` in the source is the length of the `Vec<FlowArgs>`)
        (check_signatures fuel vars principal w).map
          (List.map fun sig => { sig with pos := sig.pos.drop applied.length })
      | .Union l =>
        optFoldCat (check_signatures fuel vars principal) l
      | .Var v _ =>
        match lookupVar vars v with
        | some r =>
          (optFoldCat (check_signatures fuel vars principal) r.store.ubs).bind
            fun fromUbs =>
              (if principal then some []
               else optFoldCat (check_signatures fuel vars principal) r.store.lbs).map
                fun fromLbs => fromUbs ++ fromLbs
        | Option.none => some []
      | _ => some []

/-- `instantiate_signature` (def.rs lines 455–475), as the wrapper the
`With` arm of `check_signatures` inlines: extract the callee's signatures
and consume one leading positional per applied argument bundle. -/
def instantiate_signature (fuel : Nat) (vars : VarMap) (principal : Bool)
    (f : FlowType) (args : List FlowArgs) : Option (List FlowSignature) :=
  (check_signatures fuel vars principal f).map
    (List.map fun sig => { sig with pos := sig.pos.drop args.length })

/-- Map a fallible operation over a plain list. -/
def tresMapList (f : α → TRes β) : List α → TRes (List β)
  | [] => .ok []
  | a :: rest =>
    match f a with
    | .ok b =>
      match tresMapList f rest with
      | .ok bs => .ok (b :: bs)
      | .panicked => .panicked
      | .fuelOut => .fuelOut
    | .panicked => .panicked
    | .fuelOut => .fuelOut

/-- The in-place simplification `FlowType::signatures` applies to each
collected signature: every positional and named parameter type is passed
through `TypeCheckInfo::simplify`. -/
def simplifySig (fuel : Nat) (principal : Bool) (vars : VarMap)
    (sig : FlowSignature) : TRes FlowSignature :=
  match tresMapList (fun p => simplifyWorker fuel principal vars p) sig.pos with
  | .ok pos2 =>
    match
      tresMapSndList (fun p => simplifyWorker fuel principal vars p) sig.named with
    | .ok named2 => .ok { sig with pos := pos2, named := named2 }
    | .panicked => .panicked
    | .fuelOut => .fuelOut
  | .panicked => .panicked
  | .fuelOut => .fuelOut

/-- `FlowType::signatures` (def.rs lines 179–201): collect, answer `none`
when nothing was collected, otherwise simplify every parameter type of
every collected signature. -/
def signatures (fuel : Nat) (vars : VarMap) (principal : Bool)
    (ty : FlowType) : TRes (Option (List FlowSignature)) :=
  match check_signatures fuel vars principal ty with
  | Option.none => .fuelOut
  | some res =>
    if res.isEmpty then .ok Option.none
    else
      match tresMapList (simplifySig fuel principal vars) res with
      | .ok res2 => .ok (some res2)
      | .panicked => .panicked
      | .fuelOut => .fuelOut

/-! ## Concrete stores and predicates used by the claim statements -/

/-- A variable table with one variable carrying two informative lower
bounds (the store produced by two `ever_be(Content)` posts). -/
def c1Vars : VarMap := [(0, ⟨"v", ⟨[.Content, .Content], []⟩⟩)]

/-- A variable table with one variable whose own bounds reference itself,
the store shape the spec attributes to `let rec = (x) => rec(x)`. -/
def recVars : VarMap := [(0, ⟨"rec", ⟨[.Var 0 "rec"], []⟩⟩)]

/-- `simplify` never completes on the self-referential store, whatever
the recursion budget: the analyze phase re-enters the variable's bounds
without any memo. -/
def simplifyDivergesOnRec : Prop :=
  ∀ fuel, simplifyWorker fuel true recVars (.Var 0 "rec") = .fuelOut

/-- Depth-bounded check that a type contains no `Var` and no `Let`
anywhere (`false` when the budget `n` runs out). On such types both
simplifier phases are the identity. -/
def noVarLetF : Nat → FlowType → Bool
  | 0, _ => false
  | n + 1, ty =>
    match ty with
    | .Var _ _ => false
    | .Let _ _ => false
    | .Func pos named rest ret =>
      pos.all (noVarLetF n) && named.all (fun p => noVarLetF n p.2) &&
      (match rest with | some r => noVarLetF n r | Option.none => true) &&
      noVarLetF n ret
    | .Dict fields => fields.all (fun f => noVarLetF n f.2.1)
    | .Tuple l => l.all (noVarLetF n)
    | .Array e => noVarLetF n e
    | .With w applied =>
      noVarLetF n w &&
      applied.all (fun m => m.1.all (noVarLetF n) && m.2.all (fun p => noVarLetF n p.2))
    | .Args pos named =>
      pos.all (noVarLetF n) && named.all (fun p => noVarLetF n p.2)
    | .Unary _ t => noVarLetF n t
    | .Binary _ l r => noVarLetF n l && noVarLetF n r
    | .If c t e => noVarLetF n c && noVarLetF n t && noVarLetF n e
    | .Union l => l.all (noVarLetF n)
    | .At t _ => noVarLetF n t
    | _ => true

/-- One checker step preserves the accumulated evidence: every variable
binding persists with its name, its bound lists only grow by appended
suffixes, absent variables stay absent, and every recorded span keeps its
recorded type. -/
def StatePreserved (s s2 : TCState) : Prop :=
  (∀ id r, lookupVar s.vars id = some r →
    ∃ r2, lookupVar s2.vars id = some r2 ∧ r2.name = r.name ∧
      (∃ a, r2.store.lbs = r.store.lbs ++ a) ∧
      (∃ b, r2.store.ubs = r.store.ubs ++ b)) ∧
  (∀ id, lookupVar s.vars id = Option.none → lookupVar s2.vars id = Option.none) ∧
  (∀ sp t0, mapLookup s.mapping sp = some t0 → mapLookup s2.mapping sp = some t0)

/-- Every inference variable occurring anywhere inside a type is bound in
the variable table — the safety precondition behind the unchecked
`unwrap()` lookups of `constrain`, `check_primary_type` and the
simplifier. -/
inductive Closed (vars : VarMap) : FlowType → Prop where
  | var (id : DefId) (name : String) (r : FlowVarRec)
      (h : lookupVar vars id = some r) : Closed vars (.Var id name)
  | func (pos : List FlowType) (named : List (String × FlowType))
      (rest : Option FlowType) (ret : FlowType)
      (hpos : ∀ t ∈ pos, Closed vars t)
      (hnamed : ∀ p ∈ named, Closed vars p.2)
      (hrest : ∀ t, rest = some t → Closed vars t)
      (hret : Closed vars ret) : Closed vars (.Func pos named rest ret)
  | dict (fields : List (String × FlowType × Span))
      (hf : ∀ f ∈ fields, Closed vars f.2.1) : Closed vars (.Dict fields)
  | array (e : FlowType) (he : Closed vars e) : Closed vars (.Array e)
  | tuple (l : List FlowType) (hl : ∀ t ∈ l, Closed vars t) :
      Closed vars (.Tuple l)
  | withTy (w : FlowType)
      (applied : List (List FlowType × List (String × FlowType)))
      (hw : Closed vars w)
      (happ1 : ∀ m ∈ applied, ∀ t ∈ m.1, Closed vars t)
      (happ2 : ∀ m ∈ applied, ∀ p ∈ m.2, Closed vars p.2) :
      Closed vars (.With w applied)
  | args (pos : List FlowType) (named : List (String × FlowType))
      (hpos : ∀ t ∈ pos, Closed vars t)
      (hnamed : ∀ p ∈ named, Closed vars p.2) : Closed vars (.Args pos named)
  | unary (op : FlowUnaryOp) (t : FlowType) (ht : Closed vars t) :
      Closed vars (.Unary op t)
  | binary (op : BinOp) (l r : FlowType) (hl : Closed vars l)
      (hr : Closed vars r) : Closed vars (.Binary op l r)
  | ifTy (c t e : FlowType) (hc : Closed vars c) (ht : Closed vars t)
      (he : Closed vars e) : Closed vars (.If c t e)
  | union (l : List FlowType) (hl : ∀ t ∈ l, Closed vars t) :
      Closed vars (.Union l)
  | atTy (t : FlowType) (f : String) (ht : Closed vars t) :
      Closed vars (.At t f)
  | letTy (lbs ubs : List FlowType) (hlbs : ∀ t ∈ lbs, Closed vars t)
      (hubs : ∀ t ∈ ubs, Closed vars t) : Closed vars (.Let lbs ubs)
  | clause : Closed vars .Clause
  | undef : Closed vars .Undef
  | content : Closed vars .Content
  | any : Closed vars .Any
  | noneTy : Closed vars .None
  | infer : Closed vars .Infer
  | flowNone : Closed vars .FlowNone
  | auto : Closed vars .Auto
  | boolean (b : Option Bool) : Closed vars (.Boolean b)
  | builtin (b : FlowBuiltinType) : Closed vars (.Builtin b)
  | value (v : ValueRepr) (s : Span) : Closed vars (.Value v s)
  | valueDoc (v : ValueRepr) (d : String) : Closed vars (.ValueDoc v d)
  | element (e : Nat) : Closed vars (.Element e)

/-- Every bound stored in the variable table is itself closed over the
table — the invariant a completed walk maintains. -/
def VarMapClosed (vars : VarMap) : Prop :=
  ∀ id r, lookupVar vars id = some r →
    (∀ t ∈ r.store.lbs, Closed vars t) ∧ (∀ t ∈ r.store.ubs, Closed vars t)

/-! ## Helper lemmas -/

/-- Looking up a key that is bound in the front part of an appended
association list. -/
theorem mapLookup_append_left {m l : Mapping} {sp : Span} {t0 : FlowType}
    (h : mapLookup m sp = some t0) : mapLookup (m ++ l) sp = some t0 := by
  induction m with
  | nil => simp [mapLookup] at h
  | cons hd tl ih =>
    obtain ⟨k, t⟩ := hd
    simp only [mapLookup, List.cons_append] at h ⊢
    by_cases hk : k = sp
    · simpa [hk] using h
    · simp only [hk, if_false] at h ⊢
      exact ih h

/-- `or_insert` never disturbs an existing binding. -/
theorem mapLookup_mapOrInsert {m : Mapping} {sp sp2 : Span}
    {t0 t : FlowType} (h : mapLookup m sp = some t0) :
    mapLookup (mapOrInsert m sp2 t) sp = some t0 := by
  unfold mapOrInsert
  cases hl : mapLookup m sp2 with
  | some t1 => simpa using h
  | none => exact mapLookup_append_left h

/-- A fold of a fallible state transformer preserves any reflexive,
transitive binary invariant that each step preserves. -/
theorem tresFold_invariant {σ α : Type} {Inv : σ → σ → Prop}
    (hrefl : ∀ s, Inv s s) (htrans : ∀ a b c, Inv a b → Inv b c → Inv a c)
    {f : σ → α → TRes σ} (hf : ∀ s a s2, f s a = .ok s2 → Inv s s2) :
    ∀ l s s2, tresFold f s l = .ok s2 → Inv s s2 := by
  intro l
  induction l with
  | nil => intro s s2 h; simp [tresFold] at h; exact h ▸ hrefl s
  | cons a rest ih =>
    intro s s2 h
    simp only [tresFold] at h
    cases hs : f s a with
    | ok smid =>
      rw [hs] at h
      exact htrans _ _ _ (hf s a smid hs) (ih smid s2 h)
    | panicked => rw [hs] at h; exact absurd h (by simp)
    | fuelOut => rw [hs] at h; exact absurd h (by simp)

/-- A fold of a fallible state transformer cannot panic if no step
can. -/
theorem tresFold_no_panic {σ α : Type} {f : σ → α → TRes σ}
    {l : List α} (hf : ∀ s a, a ∈ l → f s a ≠ .panicked) :
    ∀ s, tresFold f s l ≠ .panicked := by
  induction l with
  | nil => intro s; simp [tresFold]
  | cons a rest ih =>
    intro s
    simp only [tresFold]
    cases hs : f s a with
    | ok smid => exact ih (fun s2 b hb => hf s2 b (List.mem_cons_of_mem a hb)) smid
    | panicked => exact absurd hs (hf s a (List.mem_cons_self a rest))
    | fuelOut => simp

/-- A fallible state-threading map cannot panic if no step can. -/
theorem tresMapM_no_panic {σ α β : Type} {f : σ → α → TRes (β × σ)}
    {l : List α} (hf : ∀ s a, a ∈ l → f s a ≠ .panicked) :
    ∀ s, tresMapM f s l ≠ .panicked := by
  induction l with
  | nil => intro s; simp [tresMapM]
  | cons a rest ih =>
    intro s
    simp only [tresMapM]
    cases hs : f s a with
    | ok p =>
      obtain ⟨b, s2⟩ := p
      dsimp only
      cases hr : tresMapM f s2 rest with
      | ok q => simp
      | panicked =>
        exact absurd hr (ih (fun s3 b2 hb => hf s3 b2 (List.mem_cons_of_mem a hb)) s2)
      | fuelOut => simp
    | panicked => exact absurd hs (hf s a (List.mem_cons_self a rest))
    | fuelOut => simp

/-- A successful fallible map produces a list of the same length. -/
theorem tresMapList_length {α β : Type} {f : α → TRes β} :
    ∀ {l : List α} {l2 : List β}, tresMapList f l = .ok l2 → l2.length = l.length := by
  intro l
  induction l with
  | nil => intro l2 h; simp [tresMapList] at h; simp [← h]
  | cons a rest ih =>
    intro l2 h
    simp only [tresMapList] at h
    cases hs : f a with
    | ok b =>
      rw [hs] at h
      cases hr : tresMapList f rest with
      | ok bs => rw [hr] at h; simp at h; simp [← h, ih hr]
      | panicked => rw [hr] at h; exact absurd h (by simp)
      | fuelOut => rw [hr] at h; exact absurd h (by simp)
    | panicked => rw [hs] at h; exact absurd h (by simp)
    | fuelOut => rw [hs] at h; exact absurd h (by simp)

/-- A fold whose steps leave the state unchanged leaves the state
unchanged. -/
theorem tresFold_id {σ α : Type} {f : σ → α → TRes σ} {l : List α}
    (hf : ∀ a ∈ l, ∀ s, f s a = .ok s) : ∀ s, tresFold f s l = .ok s := by
  induction l with
  | nil => intro s; rfl
  | cons a rest ih =>
    intro s
    simp only [tresFold]
    rw [hf a (List.mem_cons_self a rest) s]
    exact ih (fun b hb s2 => hf b (List.mem_cons_of_mem a hb) s2) s

/-- A state-threading map whose steps return their input unchanged is the
identity. -/
theorem tresMapM_id {σ α : Type} {f : σ → α → TRes (α × σ)} {l : List α}
    (hf : ∀ a ∈ l, ∀ s, f s a = .ok (a, s)) :
    ∀ s, tresMapM f s l = .ok (l, s) := by
  induction l with
  | nil => intro s; rfl
  | cons a rest ih =>
    intro s
    simp only [tresMapM]
    rw [hf a (List.mem_cons_self a rest) s]
    dsimp only
    rw [ih (fun b hb s2 => hf b (List.mem_cons_of_mem a hb) s2) s]

/-- Pairwise identity for `tresMapPairM`. -/
theorem tresMapPairM_id {σ : Type} {f : σ → FlowType → TRes (FlowType × σ)}
    {l : List (String × FlowType)}
    (hf : ∀ p ∈ l, ∀ s, f s p.2 = .ok (p.2, s)) :
    ∀ s, tresMapPairM f s l = .ok (l, s) := by
  induction l with
  | nil => intro s; rfl
  | cons a rest ih =>
    obtain ⟨n, t⟩ := a
    intro s
    simp only [tresMapPairM]
    rw [hf (n, t) (List.mem_cons_self _ _) s]
    dsimp only
    rw [ih (fun b hb s2 => hf b (List.mem_cons_of_mem _ hb) s2) s]

/-- Fieldwise identity for `tresMapFieldM`. -/
theorem tresMapFieldM_id {σ : Type} {f : σ → FlowType → TRes (FlowType × σ)}
    {l : List (String × FlowType × Span)}
    (hf : ∀ fd ∈ l, ∀ s, f s fd.2.1 = .ok (fd.2.1, s)) :
    ∀ s, tresMapFieldM f s l = .ok (l, s) := by
  induction l with
  | nil => intro s; rfl
  | cons a rest ih =>
    obtain ⟨n, t, sp⟩ := a
    intro s
    simp only [tresMapFieldM]
    rw [hf (n, t, sp) (List.mem_cons_self _ _) s]
    dsimp only
    rw [ih (fun b hb s2 => hf b (List.mem_cons_of_mem _ hb) s2) s]

/-- `tresMapPairM` cannot panic if no step can. -/
theorem tresMapPairM_no_panic {σ : Type} {f : σ → FlowType → TRes (FlowType × σ)}
    {l : List (String × FlowType)}
    (hf : ∀ s p, p ∈ l → f s (p : String × FlowType).2 ≠ .panicked) :
    ∀ s, tresMapPairM f s l ≠ .panicked := by
  induction l with
  | nil => intro s; simp [tresMapPairM]
  | cons a rest ih =>
    obtain ⟨n, t⟩ := a
    intro s
    simp only [tresMapPairM]
    cases hs : f s t with
    | ok p =>
      obtain ⟨t2, s2⟩ := p
      dsimp only
      cases hr : tresMapPairM f s2 rest with
      | ok q => simp
      | panicked =>
        exact absurd hr (ih (fun s3 b hb => hf s3 b (List.mem_cons_of_mem _ hb)) s2)
      | fuelOut => simp
    | panicked => exact absurd hs (hf s (n, t) (List.mem_cons_self _ _))
    | fuelOut => simp

/-- `tresMapFieldM` cannot panic if no step can. -/
theorem tresMapFieldM_no_panic {σ : Type} {f : σ → FlowType → TRes (FlowType × σ)}
    {l : List (String × FlowType × Span)}
    (hf : ∀ s fd, fd ∈ l → f s (fd : String × FlowType × Span).2.1 ≠ .panicked) :
    ∀ s, tresMapFieldM f s l ≠ .panicked := by
  induction l with
  | nil => intro s; simp [tresMapFieldM]
  | cons a rest ih =>
    obtain ⟨n, t, sp⟩ := a
    intro s
    simp only [tresMapFieldM]
    cases hs : f s t with
    | ok p =>
      obtain ⟨t2, s2⟩ := p
      dsimp only
      cases hr : tresMapFieldM f s2 rest with
      | ok q => simp
      | panicked =>
        exact absurd hr (ih (fun s3 b hb => hf s3 b (List.mem_cons_of_mem _ hb)) s2)
      | fuelOut => simp
    | panicked => exact absurd hs (hf s (n, t, sp) (List.mem_cons_self _ _))
    | fuelOut => simp

/-- A successful `tresMapSndList` preserves the list length. -/
theorem tresMapSndList_length {f : FlowType → TRes FlowType} :
    ∀ {l : List (String × FlowType)} {l2 : List (String × FlowType)},
      tresMapSndList f l = .ok l2 → l2.length = l.length := by
  intro l
  induction l with
  | nil => intro l2 h; simp [tresMapSndList] at h; simp [← h]
  | cons a rest ih =>
    obtain ⟨n, t⟩ := a
    intro l2 h
    simp only [tresMapSndList] at h
    cases hs : f t with
    | ok t2 =>
      rw [hs] at h
      dsimp only at h
      cases hr : tresMapSndList f rest with
      | ok ts => rw [hr] at h; cases h; simp [ih hr]
      | panicked => rw [hr] at h; exact absurd h (by simp)
      | fuelOut => rw [hr] at h; exact absurd h (by simp)
    | panicked => rw [hs] at h; exact absurd h (by simp)
    | fuelOut => rw [hs] at h; exact absurd h (by simp)

/-- The analyze phase is the identity on the polarity sets for types
without `Var` and `Let`. -/
theorem analyze_id :
    ∀ (n : Nat) (ty : FlowType), noVarLetF n ty = true →
      ∀ (fuel : Nat), n ≤ fuel →
        ∀ (vars : VarMap) (st : List DefId × List DefId) (pol : Bool),
          analyzeF fuel vars st ty pol = .ok st := by
  intro n
  induction n with
  | zero => intro ty h; simp [noVarLetF] at h
  | succ n ih =>
    intro ty h fuel hfuel vars st pol
    obtain ⟨f2, rfl⟩ : ∃ f2, fuel = f2 + 1 := ⟨fuel - 1, by omega⟩
    have hn : n ≤ f2 := by omega
    cases ty with
    | Var id name => simp [noVarLetF] at h
    | Let lbs ubs => simp [noVarLetF] at h
    | Func pos named rest ret =>
      simp only [noVarLetF, Bool.and_eq_true, List.all_eq_true] at h
      obtain ⟨⟨⟨hpos, hnamed⟩, hrest⟩, hret⟩ := h
      show analyzeF (f2 + 1) vars st (.Func pos named rest ret) pol = .ok st
      simp only [analyzeF]
      rw [tresFold_id (fun p hp s => ih p (hpos p hp) f2 hn vars s (!pol)) st]
      dsimp only
      rw [tresFold_id (fun p hp s => ih p.2 (hnamed p hp) f2 hn vars s (!pol)) st]
      dsimp only
      cases rest with
      | none =>
        dsimp only
        exact ih ret hret f2 hn vars st pol
      | some r =>
        dsimp only
        rw [ih r hrest f2 hn vars st (!pol)]
        exact ih ret hret f2 hn vars st pol
    | Dict fields =>
      simp only [noVarLetF, List.all_eq_true] at h
      simp only [analyzeF]
      exact tresFold_id (fun fd hf s => ih fd.2.1 (h fd hf) f2 hn vars s pol) st
    | Tuple l =>
      simp only [noVarLetF, List.all_eq_true] at h
      simp only [analyzeF]
      exact tresFold_id (fun e he s => ih e (h e he) f2 hn vars s pol) st
    | Array e =>
      simp only [noVarLetF] at h
      simp only [analyzeF]
      exact ih e h f2 hn vars st pol
    | With w applied =>
      simp only [noVarLetF, Bool.and_eq_true, List.all_eq_true] at h
      obtain ⟨hw, happ⟩ := h
      simp only [analyzeF]
      rw [ih w hw f2 hn vars st pol]
      exact tresFold_id
        (fun m hm s =>
          tresFold_id (fun a ha s2 => ih a ((happ m hm).1 a ha) f2 hn vars s2 pol) s)
        st
    | Args pos named =>
      simp only [noVarLetF, Bool.and_eq_true, List.all_eq_true] at h
      simp only [analyzeF]
      exact tresFold_id (fun a ha s => ih a (h.1 a ha) f2 hn vars s pol) st
    | Unary op t =>
      simp only [noVarLetF] at h
      simp only [analyzeF]
      exact ih t h f2 hn vars st pol
    | Binary op l r =>
      simp only [noVarLetF, Bool.and_eq_true] at h
      simp only [analyzeF]
      rw [ih l h.1 f2 hn vars st pol]
      exact ih r h.2 f2 hn vars st pol
    | If c t e =>
      simp only [noVarLetF, Bool.and_eq_true] at h
      simp only [analyzeF]
      rw [ih c h.1.1 f2 hn vars st pol]
      dsimp only
      rw [ih t h.1.2 f2 hn vars st pol]
      exact ih e h.2 f2 hn vars st pol
    | Union l =>
      simp only [noVarLetF, List.all_eq_true] at h
      simp only [analyzeF]
      exact tresFold_id (fun e he s => ih e (h e he) f2 hn vars s pol) st
    | At t fld =>
      simp only [noVarLetF] at h
      simp only [analyzeF]
      exact ih t h f2 hn vars st pol
    | Clause => rfl
    | Undef => rfl
    | Content => rfl
    | Any => rfl
    | None => rfl
    | Infer => rfl
    | FlowNone => rfl
    | Auto => rfl
    | Boolean b => rfl
    | Builtin b => rfl
    | Value v s => rfl
    | ValueDoc v d => rfl
    | Element e => rfl

/-- The transform phase is the identity (and leaves the memo unchanged)
on types without `Var` and `Let`. -/
theorem transform_id :
    ∀ (n : Nat) (ty : FlowType), noVarLetF n ty = true →
      ∀ (fuel : Nat), n ≤ fuel →
        ∀ (c : SimpCtx) (memo : Memo) (pol : Bool),
          transformF fuel c memo ty pol = .ok (ty, memo) := by
  intro n
  induction n with
  | zero => intro ty h; simp [noVarLetF] at h
  | succ n ih =>
    intro ty h fuel hfuel c memo pol
    obtain ⟨f2, rfl⟩ : ∃ f2, fuel = f2 + 1 := ⟨fuel - 1, by omega⟩
    have hn : n ≤ f2 := by omega
    cases ty with
    | Var id name => simp [noVarLetF] at h
    | Let lbs ubs => simp [noVarLetF] at h
    | Func pos named rest ret =>
      simp only [noVarLetF, Bool.and_eq_true, List.all_eq_true] at h
      obtain ⟨⟨⟨hpos, hnamed⟩, hrest⟩, hret⟩ := h
      simp only [transformF]
      rw [tresMapM_id (fun p hp m => ih p (hpos p hp) f2 hn c m (!pol)) memo]
      dsimp only
      rw [tresMapPairM_id (fun p hp m => ih p.2 (hnamed p hp) f2 hn c m (!pol)) memo]
      dsimp only
      cases rest with
      | none =>
        dsimp only
        rw [ih ret hret f2 hn c memo pol]
      | some r =>
        dsimp only
        rw [ih r hrest f2 hn c memo (!pol)]
        dsimp only
        rw [ih ret hret f2 hn c memo pol]
    | Dict fields =>
      simp only [noVarLetF, List.all_eq_true] at h
      simp only [transformF]
      rw [tresMapFieldM_id (fun fd hf m => ih fd.2.1 (h fd hf) f2 hn c m (!pol)) memo]
    | Tuple l =>
      simp only [noVarLetF, List.all_eq_true] at h
      simp only [transformF]
      rw [tresMapM_id (fun e he m => ih e (h e he) f2 hn c m pol) memo]
    | Array e =>
      simp only [noVarLetF] at h
      simp only [transformF]
      rw [ih e h f2 hn c memo pol]
    | With w applied =>
      simp only [noVarLetF, Bool.and_eq_true, List.all_eq_true] at h
      simp only [transformF]
      rw [ih w h.1 f2 hn c memo pol]
    | Args pos named =>
      simp only [noVarLetF, Bool.and_eq_true, List.all_eq_true] at h
      simp only [transformF]
      rw [tresMapM_id (fun a ha m => ih a (h.1 a ha) f2 hn c m pol) memo]
      dsimp only
      rw [tresMapPairM_id (fun p hp m => ih p.2 (h.2 p hp) f2 hn c m pol) memo]
    | Union l =>
      simp only [noVarLetF, List.all_eq_true] at h
      simp only [transformF]
      rw [tresMapM_id (fun e he m => ih e (h e he) f2 hn c m pol) memo]
    | Unary op t => rfl
    | Binary op l r => rfl
    | If c0 t e => rfl
    | At t fld => rfl
    | Clause => rfl
    | Undef => rfl
    | Content => rfl
    | Any => rfl
    | None => rfl
    | Infer => rfl
    | FlowNone => rfl
    | Auto => rfl
    | Boolean b => rfl
    | Builtin b => rfl
    | Value v s => rfl
    | ValueDoc v d => rfl
    | Element e => rfl

/-- `simplify` is the identity on types without `Var` and `Let`. -/
theorem simplifyWorker_id {n fuel : Nat} {ty : FlowType}
    (h : noVarLetF n ty = true) (hfuel : n ≤ fuel)
    (principal : Bool) (vars : VarMap) :
    simplifyWorker fuel principal vars ty = .ok ty := by
  unfold simplifyWorker
  rw [analyze_id n ty h fuel hfuel vars ([], []) true]
  dsimp only
  rw [transform_id n ty h fuel hfuel ⟨principal, vars, [], []⟩ [] true]

/-- An overwriting insert makes the new value visible at the span. -/
theorem mapLookup_mapInsert_same (m : Mapping) (sp : Span) (t : FlowType) :
    mapLookup (mapInsert m sp t) sp = some t := by
  induction m with
  | nil => simp [mapInsert, mapLookup]
  | cons hd tl ih =>
    obtain ⟨k, t0⟩ := hd
    by_cases hk : k = sp
    · simp [mapInsert, mapLookup, hk]
    · simp [mapInsert, mapLookup, hk, ih]

/-- Inserting into the memo makes the key immediately visible. -/
theorem memoLookup_memoInsert_same (m : Memo) (k : DefId × Bool) (t : FlowType) :
    memoLookup (memoInsert m k t) k = some t := by
  induction m with
  | nil => simp [memoInsert, memoLookup]
  | cons hd tl ih =>
    obtain ⟨k0, t0⟩ := hd
    by_cases hk : k0 = k
    · simp [memoInsert, memoLookup, hk]
    · simp [memoInsert, memoLookup, hk, ih]

/-- Updating a bound key makes the new record visible at that key. -/
theorem lookupVar_updateVar_self {vars : VarMap} {v : DefId} {r0 r : FlowVarRec}
    (h : lookupVar vars v = some r0) :
    lookupVar (updateVar vars v r) v = some r := by
  induction vars with
  | nil => simp [lookupVar] at h
  | cons hd tl ih =>
    obtain ⟨k, rc⟩ := hd
    by_cases hk : k = v
    · simp [lookupVar, updateVar, hk]
    · simp only [lookupVar, updateVar, hk, if_false] at h ⊢
      exact ih h

/-- Updating one key leaves every other key's binding unchanged. -/
theorem lookupVar_updateVar_other {vars : VarMap} {v id : DefId}
    {r : FlowVarRec} (hne : id ≠ v) :
    lookupVar (updateVar vars v r) id = lookupVar vars id := by
  induction vars with
  | nil => rfl
  | cons hd tl ih =>
    obtain ⟨k, rc⟩ := hd
    by_cases hk : k = v
    · subst hk
      simp [lookupVar, updateVar, Ne.symm hne]
    · by_cases hk2 : k = id
      · subst hk2
        simp [lookupVar, updateVar, hk]
      · simp [lookupVar, updateVar, hk, hk2, ih]

/-- `StatePreserved` is reflexive. -/
theorem statePreserved_refl (s : TCState) : StatePreserved s s := by
  refine ⟨fun id r h => ⟨r, h, rfl, ⟨[], by simp⟩, ⟨[], by simp⟩⟩, fun id h => h,
    fun sp t0 h => h⟩

/-- `StatePreserved` is transitive. -/
theorem statePreserved_trans {a b c : TCState}
    (h1 : StatePreserved a b) (h2 : StatePreserved b c) : StatePreserved a c := by
  obtain ⟨v1, n1, m1⟩ := h1
  obtain ⟨v2, n2, m2⟩ := h2
  refine ⟨?_, fun id h => n2 id (n1 id h), fun sp t0 h => m2 sp t0 (m1 sp t0 h)⟩
  intro id r h
  obtain ⟨r2, hl2, hn2, ⟨a1, ha1⟩, ⟨b1, hb1⟩⟩ := v1 id r h
  obtain ⟨r3, hl3, hn3, ⟨a2, ha2⟩, ⟨b2, hb2⟩⟩ := v2 id r2 hl2
  exact ⟨r3, hl3, hn3.trans hn2,
    ⟨a1 ++ a2, by rw [ha2, ha1, List.append_assoc]⟩,
    ⟨b1 ++ b2, by rw [hb2, hb1, List.append_assoc]⟩⟩

/-- Extending the mapping by an insert-if-absent step preserves the
state. -/
theorem statePreserved_mapOrInsert (s : TCState) (sp : Span) (t : FlowType) :
    StatePreserved s { s with mapping := mapOrInsert s.mapping sp t } := by
  refine ⟨fun id r h => ⟨r, h, rfl, ⟨[], by simp⟩, ⟨[], by simp⟩⟩, fun id h => h,
    fun sp2 t0 h => mapLookup_mapOrInsert h⟩

/-- Posting a constraint into a variable's upper bounds preserves the
state. -/
theorem statePreserved_push_ubs {s : TCState} {v : DefId} {r : FlowVarRec}
    (hl : lookupVar s.vars v = some r) (t : FlowType) :
    StatePreserved s
      { s with vars := updateVar s.vars v ({ r with store := { r.store with ubs := r.store.ubs ++ [t] } }) } := by
  refine ⟨?_, ?_, fun sp t0 h => h⟩
  · intro id r0 h
    by_cases hid : id = v
    · subst hid
      rw [h] at hl
      cases hl
      exact ⟨_, lookupVar_updateVar_self h, rfl, ⟨[], by simp⟩, ⟨[t], rfl⟩⟩
    · exact ⟨r0, by rw [lookupVar_updateVar_other hid]; exact h, rfl,
        ⟨[], by simp⟩, ⟨[], by simp⟩⟩
  · intro id h
    by_cases hid : id = v
    · subst hid; rw [h] at hl; exact absurd hl (by simp)
    · rw [lookupVar_updateVar_other hid]; exact h

/-- Posting a constraint into a variable's lower bounds preserves the
state. -/
theorem statePreserved_push_lbs {s : TCState} {v : DefId} {r : FlowVarRec}
    (hl : lookupVar s.vars v = some r) (t : FlowType) :
    StatePreserved s
      { s with vars := updateVar s.vars v ({ r with store := { r.store with lbs := r.store.lbs ++ [t] } }) } := by
  refine ⟨?_, ?_, fun sp t0 h => h⟩
  · intro id r0 h
    by_cases hid : id = v
    · subst hid
      rw [h] at hl
      cases hl
      exact ⟨_, lookupVar_updateVar_self h, rfl, ⟨[t], rfl⟩, ⟨[], by simp⟩⟩
    · exact ⟨r0, by rw [lookupVar_updateVar_other hid]; exact h, rfl,
        ⟨[], by simp⟩, ⟨[], by simp⟩⟩
  · intro id h
    by_cases hid : id = v
    · subst hid; rw [h] at hl; exact absurd hl (by simp)
    · rw [lookupVar_updateVar_other hid]; exact h

set_option maxHeartbeats 4000000 in
/-- Every successful `constrain` call only extends the state: bound lists
grow by appended suffixes, the variable domain is unchanged, and every
already-recorded span keeps its type (all mapping writes of `constrain`
are insert-if-absent). -/
theorem constrain_preserves :
    ∀ (fuel : Nat) (s : TCState) (lhs rhs : FlowType) (s2 : TCState),
      constrainF fuel s lhs rhs = .ok s2 → StatePreserved s s2 := by
  intro fuel
  induction fuel with
  | zero =>
    intro s lhs rhs s2 h
    exact absurd h (by simp [constrainF])
  | succ f ih =>
    have hfold :
        ∀ (l : List FlowType) (g : TCState → FlowType → TRes TCState),
          (∀ s3 e s4, g s3 e = .ok s4 → StatePreserved s3 s4) →
          ∀ s s2, tresFold g s l = .ok s2 → StatePreserved s s2 := by
      intro l g hg s s2 h
      exact tresFold_invariant statePreserved_refl
        (fun a b c => statePreserved_trans) (fun s3 a s4 h4 => hg s3 a s4 h4)
        l s s2 h
    intro s lhs rhs s2 h
    simp only [constrainF] at h
    split at h
    -- Var–Var: no-op whether or not the ids agree
    case h_1 =>
      split at h <;> (cases h; exact statePreserved_refl s)
    -- (Var v, σ): σ appended to v.ubs (panic when v is unbound)
    case h_2 =>
      split at h
      · cases h; exact statePreserved_push_ubs (by assumption) _
      · exact absurd h (by simp)
    -- (τ, Var w): τ appended to w.lbs
    case h_3 =>
      split at h
      · cases h; exact statePreserved_push_lbs (by assumption) _
      · exact absurd h (by simp)
    -- Union distribution, both sides
    case h_4 => exact hfold _ _ (fun s3 e s4 h4 => ih s3 e _ s4 h4) s s2 h
    case h_5 => exact hfold _ _ (fun s3 e s4 h4 => ih s3 _ e s4 h4) s s2 h
    -- the ten dict-alias arms re-post against the catalog dict shape
    case h_6 =>
      split at h
      · exact ih s _ _ s2 h
      · cases h; exact statePreserved_refl s
    case h_7 =>
      split at h
      · exact ih s _ _ s2 h
      · cases h; exact statePreserved_refl s
    case h_8 =>
      split at h
      · exact ih s _ _ s2 h
      · cases h; exact statePreserved_refl s
    case h_9 =>
      split at h
      · exact ih s _ _ s2 h
      · cases h; exact statePreserved_refl s
    case h_10 =>
      split at h
      · exact ih s _ _ s2 h
      · cases h; exact statePreserved_refl s
    case h_11 =>
      split at h
      · exact ih s _ _ s2 h
      · cases h; exact statePreserved_refl s
    case h_12 =>
      split at h
      · exact ih s _ _ s2 h
      · cases h; exact statePreserved_refl s
    case h_13 =>
      split at h
      · exact ih s _ _ s2 h
      · cases h; exact statePreserved_refl s
    case h_14 =>
      split at h
      · exact ih s _ _ s2 h
      · cases h; exact statePreserved_refl s
    case h_15 =>
      split at h
      · exact ih s _ _ s2 h
      · cases h; exact statePreserved_refl s
    -- Dict–Dict: constrain each shared field, then the two insert-if-absent
    -- span backfills
    case h_16 =>
      refine tresFold_invariant statePreserved_refl
        (fun a b c => statePreserved_trans) ?_ _ s s2 h
      intro s3 pr s4 h4
      cases hc : constrainF f s3 pr.1.2.1 pr.2.2.1 with
      | ok s5 =>
        rw [hc] at h4
        dsimp only at h4
        refine statePreserved_trans (ih s3 _ _ s5 hc) ?_
        split at h4 <;> split at h4 <;> cases h4 <;>
          first
          | exact statePreserved_refl _
          | exact statePreserved_mapOrInsert _ _ _
          | exact statePreserved_trans (statePreserved_mapOrInsert _ _ _)
              (statePreserved_mapOrInsert _ _ _)
      | panicked => rw [hc] at h4; exact absurd h4 (by simp)
      | fuelOut => rw [hc] at h4; exact absurd h4 (by simp)
    -- the two Value span-backfill arms
    case h_17 =>
      split at h
      · cases h; exact statePreserved_refl s
      · cases h; exact statePreserved_mapOrInsert s _ _
    case h_18 =>
      split at h
      · cases h; exact statePreserved_refl s
      · cases h; exact statePreserved_mapOrInsert s _ _
    -- every other combination is a logged no-op
    case h_19 => cases h; exact statePreserved_refl s

/-- Closedness transfers to any table that binds at least the same
ids. -/
theorem closed_mono {vars vars2 : VarMap}
    (hdom : ∀ id r, lookupVar vars id = some r →
      ∃ r2, lookupVar vars2 id = some r2) :
    ∀ {ty : FlowType}, Closed vars ty → Closed vars2 ty := by
  intro ty h
  induction h with
  | var id name r hr =>
    obtain ⟨r2, hr2⟩ := hdom id r hr
    exact Closed.var id name r2 hr2
  | func pos named rest ret hpos hnamed hrest hret ihpos ihnamed ihrest ihret =>
    exact Closed.func pos named rest ret ihpos ihnamed ihrest ihret
  | dict fields hf ihf => exact Closed.dict fields ihf
  | array e he ihe => exact Closed.array e ihe
  | tuple l hl ihl => exact Closed.tuple l ihl
  | withTy w applied hw happ1 happ2 ihw ihapp1 ihapp2 =>
    exact Closed.withTy w applied ihw ihapp1 ihapp2
  | args pos named hpos hnamed ihpos ihnamed =>
    exact Closed.args pos named ihpos ihnamed
  | unary op t ht iht => exact Closed.unary op t iht
  | binary op l r hl hr ihl ihr => exact Closed.binary op l r ihl ihr
  | ifTy c t e hc ht he ihc iht ihe => exact Closed.ifTy c t e ihc iht ihe
  | union l hl ihl => exact Closed.union l ihl
  | atTy t f ht iht => exact Closed.atTy t f iht
  | letTy lbs ubs hlbs hubs ihlbs ihubs => exact Closed.letTy lbs ubs ihlbs ihubs
  | clause => exact Closed.clause
  | undef => exact Closed.undef
  | content => exact Closed.content
  | any => exact Closed.any
  | noneTy => exact Closed.noneTy
  | infer => exact Closed.infer
  | flowNone => exact Closed.flowNone
  | auto => exact Closed.auto
  | boolean b => exact Closed.boolean b
  | builtin b => exact Closed.builtin b
  | value v s => exact Closed.value v s
  | valueDoc v d => exact Closed.valueDoc v d
  | element e => exact Closed.element e

/-- Appending a fresh binding makes it visible. -/
theorem lookupVar_append_self {vars : VarMap} {k : DefId} {r : FlowVarRec}
    (h : lookupVar vars k = Option.none) :
    lookupVar (vars ++ [(k, r)]) k = some r := by
  induction vars with
  | nil => simp [lookupVar]
  | cons hd tl ih =>
    obtain ⟨k0, r0⟩ := hd
    by_cases hk : k0 = k
    · simp [lookupVar, hk] at h
    · simp only [lookupVar, hk, if_false, List.cons_append] at h ⊢
      exact ih h

/-- A fold of a fallible state transformer cannot panic when every step
both keeps an invariant and cannot panic under it. -/
theorem tresFold_no_panic_inv {σ α : Type} {P : σ → Prop}
    {f : σ → α → TRes σ} {l : List α}
    (hstep : ∀ s a, a ∈ l → P s → f s a ≠ .panicked)
    (hpres : ∀ s a s2, a ∈ l → f s a = .ok s2 → P s → P s2) :
    ∀ s, P s → tresFold f s l ≠ .panicked := by
  induction l with
  | nil => intro s _; simp [tresFold]
  | cons a rest ih =>
    intro s hp
    simp only [tresFold]
    cases hs : f s a with
    | ok s2 =>
      exact ih (fun s3 b hb => hstep s3 b (List.mem_cons_of_mem a hb))
        (fun s3 b s4 hb h4 => hpres s3 b s4 (List.mem_cons_of_mem a hb) h4)
        s2 (hpres s a s2 (List.mem_cons_self a rest) hs hp)
    | panicked => exact absurd hs (hstep s a (List.mem_cons_self a rest) hp)
    | fuelOut => simp

/-- The five catalog dict shapes are closed over any table (their field
types are builtins). -/
theorem closed_catalog_dicts (vars : VarMap) :
    Closed vars (.Dict FLOW_STROKE_DICT) ∧ Closed vars (.Dict FLOW_MARGIN_DICT) ∧
    Closed vars (.Dict FLOW_INSET_DICT) ∧ Closed vars (.Dict FLOW_OUTSET_DICT) ∧
    Closed vars (.Dict FLOW_RADIUS_DICT) := by
  refine ⟨Closed.dict _ ?_, Closed.dict _ ?_, Closed.dict _ ?_,
    Closed.dict _ ?_, Closed.dict _ ?_⟩ <;>
  · intro f hf
    fin_cases hf <;> exact Closed.builtin _

/-- Each pair produced by `intersect_keys` consists of a field of the
left record and a field of the right record. -/
theorem intersect_keys_mem {l r : List Field} {pr : Field × Field}
    (h : pr ∈ intersect_keys l r) : pr.1 ∈ l ∧ pr.2 ∈ r := by
  unfold intersect_keys at h
  rw [List.mem_filterMap] at h
  obtain ⟨p, _, heq⟩ := h
  cases hl : l.get? p.1 with
  | none => rw [hl] at heq; simp at heq
  | some lf =>
    rw [hl] at heq
    cases hr : r.get? p.2 with
    | none => rw [hr] at heq; simp at heq
    | some rf =>
      rw [hr] at heq
      have hpr : (lf, rf) = pr := by simpa using heq
      subst hpr
      exact ⟨List.get?_mem hl, List.get?_mem hr⟩

/-- `get_var` always hands back a `Var` whose id is bound in the updated
table. -/
theorem get_var_present :
    ∀ (s : TCState) (defId : DefId) (name : String) (span : Span),
      ∃ r, lookupVar (get_var s defId name span).1.vars defId = some r ∧
        (get_var s defId name span).2 = .Var defId r.name := by
  intro s defId name span
  unfold get_var
  cases hl : lookupVar s.vars defId with
  | some r =>
    refine ⟨r, ?_, ?_⟩ <;> simp [hl]
  | none =>
    refine ⟨⟨name, ⟨[], []⟩⟩, ?_, ?_⟩ <;>
      simp [hl, lookupVar_append_self hl]

/-- `check_primary_type` cannot panic on a closed type. -/
theorem check_primary_type_no_panic :
    ∀ (vars : VarMap) (ty : FlowType), Closed vars ty →
      check_primary_type vars ty ≠ .panicked := by
  intro vars ty h
  induction h with
  | var id name r hr =>
    simp only [check_primary_type, hr]
    split
    · split <;> simp
    · simp
  | atTy t f ht iht => simpa [check_primary_type] using iht
  | func pos named rest ret hpos hnamed hrest hret ihpos ihnamed ihrest ihret =>
    simp [check_primary_type]
  | dict fields hf ihf => simp [check_primary_type]
  | array e he ihe => simp [check_primary_type]
  | tuple l hl ihl => simp [check_primary_type]
  | withTy w applied hw happ1 happ2 ihw ihapp1 ihapp2 => simp [check_primary_type]
  | args pos named hpos hnamed ihpos ihnamed => simp [check_primary_type]
  | unary op t ht iht => simp [check_primary_type]
  | binary op l r hl hr ihl ihr => simp [check_primary_type]
  | ifTy c t e hc ht he ihc iht ihe => simp [check_primary_type]
  | union l hl ihl => simp [check_primary_type]
  | letTy lbs ubs hlbs hubs ihlbs ihubs => simp [check_primary_type]
  | clause => simp [check_primary_type]
  | undef => simp [check_primary_type]
  | content => simp [check_primary_type]
  | any => simp [check_primary_type]
  | noneTy => simp [check_primary_type]
  | infer => simp [check_primary_type]
  | flowNone => simp [check_primary_type]
  | auto => simp [check_primary_type]
  | boolean b => simp [check_primary_type]
  | builtin b => simp [check_primary_type]
  | value v s => simp [check_primary_type]
  | valueDoc v d => simp [check_primary_type]
  | element e => simp [check_primary_type]

/-- The analyze phase cannot panic when the type and every stored bound
are closed: every `unwrap()`ed variable lookup succeeds. -/
theorem analyze_no_panic :
    ∀ (fuel : Nat) (vars : VarMap), VarMapClosed vars →
      ∀ (ty : FlowType), Closed vars ty →
        ∀ (st : List DefId × List DefId) (pol : Bool),
          analyzeF fuel vars st ty pol ≠ .panicked := by
  intro fuel
  induction fuel with
  | zero => intro vars _ ty _ st pol; simp [analyzeF]
  | succ f ih =>
    intro vars hvm ty hc st pol
    cases hc with
    | var id name r hr =>
      simp only [analyzeF, hr]
      cases pol with
      | false =>
        simp only [Bool.false_eq_true, if_false]
        exact tresFold_no_panic
          (fun s2 b hb => ih vars hvm b ((hvm id r hr).2 b hb) s2 false) _
      | true =>
        simp only [if_true]
        exact tresFold_no_panic
          (fun s2 b hb => ih vars hvm b ((hvm id r hr).1 b hb) s2 true) _
    | func pos named rest ret hpos hnamed hrest hret =>
      simp only [analyzeF]
      cases h1 : tresFold (fun st2 p => analyzeF f vars st2 p (!pol)) st pos with
      | ok st2 =>
        try dsimp only
        cases h2 : tresFold (fun st3 p => analyzeF f vars st3 p.2 (!pol)) st2 named with
        | ok st3 =>
          try dsimp only
          cases rest with
          | none =>
            try dsimp only
            exact ih vars hvm ret hret st3 pol
          | some rt =>
            try dsimp only
            cases h3 : analyzeF f vars st3 rt (!pol) with
            | ok st4 =>
              try dsimp only
              exact ih vars hvm ret hret st4 pol
            | panicked => exact absurd h3 (ih vars hvm rt (hrest rt rfl) st3 (!pol))
            | fuelOut => simp
        | panicked =>
          exact absurd h2
            (tresFold_no_panic (fun s2 p hp => ih vars hvm p.2 (hnamed p hp) s2 (!pol)) st2)
        | fuelOut => try dsimp only; cases rest <;> simp
      | panicked =>
        exact absurd h1
          (tresFold_no_panic (fun s2 p hp => ih vars hvm p (hpos p hp) s2 (!pol)) st)
      | fuelOut => try dsimp only; cases rest <;> simp
    | dict fields hf =>
      simp only [analyzeF]
      exact tresFold_no_panic
        (fun s2 fd hfd => ih vars hvm fd.2.1 (hf fd hfd) s2 pol) st
    | tuple l hl =>
      simp only [analyzeF]
      exact tresFold_no_panic (fun s2 e he => ih vars hvm e (hl e he) s2 pol) st
    | array e he =>
      simp only [analyzeF]
      exact ih vars hvm e he st pol
    | withTy w applied hw happ1 happ2 =>
      simp only [analyzeF]
      cases h1 : analyzeF f vars st w pol with
      | ok st2 =>
        try dsimp only
        refine tresFold_no_panic ?_ st2
        intro s2 m hm
        exact tresFold_no_panic
          (fun s3 a ha => ih vars hvm a (happ1 m hm a ha) s3 pol) s2
      | panicked => exact absurd h1 (ih vars hvm w hw st pol)
      | fuelOut => simp
    | args pos named hpos hnamed =>
      simp only [analyzeF]
      exact tresFold_no_panic (fun s2 a ha => ih vars hvm a (hpos a ha) s2 pol) st
    | unary op t ht =>
      simp only [analyzeF]
      exact ih vars hvm t ht st pol
    | binary op l r hl hr =>
      simp only [analyzeF]
      cases h1 : analyzeF f vars st l pol with
      | ok st2 =>
        try dsimp only
        exact ih vars hvm r hr st2 pol
      | panicked => exact absurd h1 (ih vars hvm l hl st pol)
      | fuelOut => simp
    | ifTy c t e hcnd ht he =>
      simp only [analyzeF]
      cases h1 : analyzeF f vars st c pol with
      | ok st2 =>
        try dsimp only
        cases h2 : analyzeF f vars st2 t pol with
        | ok st3 =>
          try dsimp only
          exact ih vars hvm e he st3 pol
        | panicked => exact absurd h2 (ih vars hvm t ht st2 pol)
        | fuelOut => simp
      | panicked => exact absurd h1 (ih vars hvm c hcnd st pol)
      | fuelOut => simp
    | union l hl =>
      simp only [analyzeF]
      exact tresFold_no_panic (fun s2 e he => ih vars hvm e (hl e he) s2 pol) st
    | atTy t fld ht =>
      simp only [analyzeF]
      exact ih vars hvm t ht st pol
    | letTy lbs ubs hlbs hubs =>
      simp only [analyzeF]
      cases h1 : tresFold (fun st2 lb => analyzeF f vars st2 lb (!pol)) st lbs with
      | ok st2 =>
        try dsimp only
        exact tresFold_no_panic
          (fun s2 b hb => ih vars hvm b (hubs b hb) s2 pol) st2
      | panicked =>
        exact absurd h1
          (tresFold_no_panic (fun s2 b hb => ih vars hvm b (hlbs b hb) s2 (!pol)) st)
      | fuelOut => simp
    | clause => simp [analyzeF]
    | undef => simp [analyzeF]
    | content => simp [analyzeF]
    | any => simp [analyzeF]
    | noneTy => simp [analyzeF]
    | infer => simp [analyzeF]
    | flowNone => simp [analyzeF]
    | auto => simp [analyzeF]
    | boolean b => simp [analyzeF]
    | builtin b => simp [analyzeF]
    | value v s => simp [analyzeF]
    | valueDoc v d => simp [analyzeF]
    | element e => simp [analyzeF]

/-- The transform phase cannot panic when the type and every stored
bound are closed. -/
theorem transform_no_panic :
    ∀ (fuel : Nat) (c : SimpCtx), VarMapClosed c.vars →
      ∀ (ty : FlowType), Closed c.vars ty →
        ∀ (memo : Memo) (pol : Bool),
          transformF fuel c memo ty pol ≠ .panicked := by
  intro fuel
  induction fuel with
  | zero => intro c _ ty _ memo pol; simp [transformF]
  | succ f ih =>
    intro c hvm ty hc memo pol
    cases hc with
    | var id name r hr =>
      simp only [transformF]
      cases hm : memoLookup memo (id, c.principal) with
      | some cano => simp
      | none =>
        try dsimp only
        rw [hr]
        try dsimp only
        have hl2 : ∀ m,
            tresMapM (fun m2 lb => transformF f c m2 lb pol) m r.store.lbs
              ≠ .panicked :=
          fun m => tresMapM_no_panic
            (fun m2 b hb => ih c hvm b ((hvm id r hr).1 b hb) m2 pol) m
        have hu2 : ∀ m,
            tresMapM (fun m2 ub => transformF f c m2 ub (!pol)) m r.store.ubs
              ≠ .panicked :=
          fun m => tresMapM_no_panic
            (fun m2 b hb => ih c hvm b ((hvm id r hr).2 b hb) m2 (!pol)) m
        cases hA :
            (if (!c.principal || (pol && !(c.negatives.contains id))) = true then
              tresMapM (fun m2 lb => transformF f c m2 lb pol)
                (memoInsert memo (id, c.principal) FlowType.Any) r.store.lbs
            else .ok ([], memoInsert memo (id, c.principal) FlowType.Any)) with
        | ok q =>
          obtain ⟨lbs2, m2⟩ := q
          dsimp only
          cases hB :
              (if (!c.principal || (!pol && !(c.positives.contains id))) = true
                  then
                tresMapM (fun m2 ub => transformF f c m2 ub (!pol)) m2
                  r.store.ubs
              else .ok ([], m2)) with
          | ok q2 =>
            obtain ⟨ubs2, m3⟩ := q2
            dsimp only
            (repeat' split) <;> simp
          | panicked =>
            split at hB
            · exact absurd hB (hu2 _)
            · simp at hB
          | fuelOut => simp
        | panicked =>
          split at hA
          · exact absurd hA (hl2 _)
          · simp at hA
        | fuelOut => simp
    | func pos named rest ret hpos hnamed hrest hret =>
      simp only [transformF]
      have h1 : ∀ m,
          tresMapM (fun m2 p => transformF f c m2 p (!pol)) m pos ≠ .panicked :=
        fun m => tresMapM_no_panic
          (fun m2 b hb => ih c hvm b (hpos b hb) m2 (!pol)) m
      have h2 : ∀ m,
          tresMapPairM (fun m2 p => transformF f c m2 p (!pol)) m named
            ≠ .panicked :=
        fun m => tresMapPairM_no_panic
          (fun m2 p hp => ih c hvm p.2 (hnamed p hp) m2 (!pol)) m
      cases rest with
      | none =>
        cases hA : tresMapM (fun m2 p => transformF f c m2 p (!pol)) memo pos
            with
        | ok q =>
          obtain ⟨pos2, m2⟩ := q
          dsimp only
          cases hB :
              tresMapPairM (fun m3 p => transformF f c m3 p (!pol)) m2 named
              with
          | ok q2 =>
            obtain ⟨named2, m4⟩ := q2
            dsimp only
            cases hC : transformF f c m4 ret pol with
            | ok q3 => obtain ⟨ret2, m7⟩ := q3; simp
            | panicked => exact absurd hC (ih c hvm ret hret m4 pol)
            | fuelOut => simp
          | panicked => exact absurd hB (h2 m2)
          | fuelOut => simp
        | panicked => exact absurd hA (h1 memo)
        | fuelOut => simp
      | some rt =>
        cases hA : tresMapM (fun m2 p => transformF f c m2 p (!pol)) memo pos
            with
        | ok q =>
          obtain ⟨pos2, m2⟩ := q
          dsimp only
          cases hB :
              tresMapPairM (fun m3 p => transformF f c m3 p (!pol)) m2 named
              with
          | ok q2 =>
            obtain ⟨named2, m4⟩ := q2
            dsimp only
            cases hC : transformF f c m4 rt (!pol) with
            | ok q3 =>
              obtain ⟨rt2, m5⟩ := q3
              dsimp only
              cases hD : transformF f c m5 ret pol with
              | ok q4 => obtain ⟨ret2, m7⟩ := q4; simp
              | panicked => exact absurd hD (ih c hvm ret hret m5 pol)
              | fuelOut => simp
            | panicked => exact absurd hC (ih c hvm rt (hrest rt rfl) m4 (!pol))
            | fuelOut => simp
          | panicked => exact absurd hB (h2 m2)
          | fuelOut => simp
        | panicked => exact absurd hA (h1 memo)
        | fuelOut => simp
    | dict fields hf =>
      simp only [transformF]
      have h1 : ∀ m,
          tresMapFieldM (fun m2 t => transformF f c m2 t (!pol)) m fields
            ≠ .panicked :=
        fun m => tresMapFieldM_no_panic
          (fun m2 fd hfd => ih c hvm fd.2.1 (hf fd hfd) m2 (!pol)) m
      cases hA :
          tresMapFieldM (fun m2 t => transformF f c m2 t (!pol)) memo fields
          with
      | ok q => obtain ⟨fs2, m2⟩ := q; simp
      | panicked => exact absurd hA (h1 memo)
      | fuelOut => simp
    | tuple l hl =>
      simp only [transformF]
      have h1 : ∀ m,
          tresMapM (fun m2 e => transformF f c m2 e pol) m l ≠ .panicked :=
        fun m => tresMapM_no_panic
          (fun m2 b hb => ih c hvm b (hl b hb) m2 pol) m
      cases hA : tresMapM (fun m2 e => transformF f c m2 e pol) memo l with
      | ok q => obtain ⟨l2, m2⟩ := q; simp
      | panicked => exact absurd hA (h1 memo)
      | fuelOut => simp
    | array e he =>
      simp only [transformF]
      cases h1 : transformF f c memo e pol with
      | ok q => obtain ⟨e2, m2⟩ := q; simp
      | panicked => exact absurd h1 (ih c hvm e he memo pol)
      | fuelOut => simp
    | withTy w applied hw happ1 happ2 =>
      simp only [transformF]
      cases h1 : transformF f c memo w pol with
      | ok q => obtain ⟨w2, m2⟩ := q; simp
      | panicked => exact absurd h1 (ih c hvm w hw memo pol)
      | fuelOut => simp
    | args pos named hpos hnamed =>
      simp only [transformF]
      have h1 : ∀ m,
          tresMapM (fun m2 a => transformF f c m2 a pol) m pos ≠ .panicked :=
        fun m => tresMapM_no_panic
          (fun m2 b hb => ih c hvm b (hpos b hb) m2 pol) m
      have h2 : ∀ m,
          tresMapPairM (fun m2 p => transformF f c m2 p pol) m named
            ≠ .panicked :=
        fun m => tresMapPairM_no_panic
          (fun m2 p hp => ih c hvm p.2 (hnamed p hp) m2 pol) m
      cases hA : tresMapM (fun m2 a => transformF f c m2 a pol) memo pos with
      | ok q =>
        obtain ⟨pos2, m2⟩ := q
        dsimp only
        cases hB : tresMapPairM (fun m3 p => transformF f c m3 p pol) m2 named
            with
        | ok q2 => obtain ⟨named2, m4⟩ := q2; simp
        | panicked => exact absurd hB (h2 m2)
        | fuelOut => simp
      | panicked => exact absurd hA (h1 memo)
      | fuelOut => simp
    | union l hl =>
      simp only [transformF]
      have h1 : ∀ m,
          tresMapM (fun m2 e => transformF f c m2 e pol) m l ≠ .panicked :=
        fun m => tresMapM_no_panic
          (fun m2 b hb => ih c hvm b (hl b hb) m2 pol) m
      cases hA : tresMapM (fun m2 e => transformF f c m2 e pol) memo l with
      | ok q => obtain ⟨l2, m2⟩ := q; simp
      | panicked => exact absurd hA (h1 memo)
      | fuelOut => simp
    | unary op t ht => simp [transformF]
    | binary op l r hl hr => simp [transformF]
    | ifTy c0 t e hc0 ht he => simp [transformF]
    | atTy t fld ht => simp [transformF]
    | letTy lbs ubs hlbs hubs => simp [transformF]
    | clause => simp [transformF]
    | undef => simp [transformF]
    | content => simp [transformF]
    | any => simp [transformF]
    | noneTy => simp [transformF]
    | infer => simp [transformF]
    | flowNone => simp [transformF]
    | auto => simp [transformF]
    | boolean b => simp [transformF]
    | builtin b => simp [transformF]
    | value v s => simp [transformF]
    | valueDoc v d => simp [transformF]
    | element e => simp [transformF]

/-- The domain component of `StatePreserved`: every bound id stays
bound. -/
theorem statePreserved_dom {s s2 : TCState} (hp : StatePreserved s s2) :
    ∀ id r, lookupVar s.vars id = some r →
      ∃ r2, lookupVar s2.vars id = some r2 :=
  fun id r hrec => (hp.1 id r hrec).imp fun _ h2 => h2.1

/-- Closedness survives any state transition that preserves the variable
domain. -/
theorem closed_pres {s s2 : TCState} (hp : StatePreserved s s2)
    {ty : FlowType} (h : Closed s.vars ty) : Closed s2.vars ty :=
  closed_mono (statePreserved_dom hp) h

/-- `constrain` cannot panic when both sides are closed over the current
variable table: the `unwrap()`ed lookup in each `Var` arm always finds
its entry, including through the `Union` and `Dict` folds, which only
grow the table. -/
theorem constrain_no_panic :
    ∀ (fuel : Nat) (s : TCState) (lhs rhs : FlowType),
      Closed s.vars lhs → Closed s.vars rhs →
      constrainF fuel s lhs rhs ≠ .panicked := by
  intro fuel
  induction fuel with
  | zero => intro s lhs rhs _ _; simp [constrainF]
  | succ f ih =>
    intro s lhs rhs hl hr
    simp only [constrainF]
    split
    case h_1 => split <;> simp
    case h_2 =>
      cases hl
      rename_i r hrec
      rw [hrec]
      simp
    case h_3 =>
      cases hr
      rename_i r hrec
      rw [hrec]
      simp
    case h_4 =>
      have hl2 := hl
      cases hl2
      rename_i hil
      refine tresFold_no_panic_inv ?_ ?_ s (statePreserved_refl s)
      · intro s3 e he hp
        exact ih s3 e _ (closed_pres hp (hil e he)) (closed_pres hp hr)
      · intro s3 e s4 _ h4 hp
        exact statePreserved_trans hp (constrain_preserves f s3 e _ s4 h4)
    case h_5 =>
      have hr2 := hr
      cases hr2
      rename_i hil
      refine tresFold_no_panic_inv ?_ ?_ s (statePreserved_refl s)
      · intro s3 e he hp
        exact ih s3 _ e (closed_pres hp hl) (closed_pres hp (hil e he))
      · intro s3 e s4 _ h4 hp
        exact statePreserved_trans hp (constrain_preserves f s3 _ e s4 h4)
    case h_6 =>
      split
      · exact ih s _ _ hl (closed_catalog_dicts s.vars).1
      · simp
    case h_7 =>
      split
      · exact ih s _ _ (closed_catalog_dicts s.vars).1 hr
      · simp
    case h_8 =>
      split
      · exact ih s _ _ hl (closed_catalog_dicts s.vars).2.1
      · simp
    case h_9 =>
      split
      · exact ih s _ _ (closed_catalog_dicts s.vars).2.1 hr
      · simp
    case h_10 =>
      split
      · exact ih s _ _ hl (closed_catalog_dicts s.vars).2.2.1
      · simp
    case h_11 =>
      split
      · exact ih s _ _ (closed_catalog_dicts s.vars).2.2.1 hr
      · simp
    case h_12 =>
      split
      · exact ih s _ _ hl (closed_catalog_dicts s.vars).2.2.2.1
      · simp
    case h_13 =>
      split
      · exact ih s _ _ (closed_catalog_dicts s.vars).2.2.2.1 hr
      · simp
    case h_14 =>
      split
      · exact ih s _ _ hl (closed_catalog_dicts s.vars).2.2.2.2
      · simp
    case h_15 =>
      split
      · exact ih s _ _ (closed_catalog_dicts s.vars).2.2.2.2 hr
      · simp
    case h_16 =>
      have hl2 := hl
      cases hl2
      rename_i hlf
      have hr2 := hr
      cases hr2
      rename_i hrf
      refine tresFold_no_panic_inv ?_ ?_ s (statePreserved_refl s)
      · intro s3 pr hpr hp
        obtain ⟨hprl, hprr⟩ := intersect_keys_mem hpr
        cases hc : constrainF f s3 pr.1.2.1 pr.2.2.1 with
        | ok s5 => simp
        | panicked =>
          exact absurd hc (ih s3 _ _ (closed_pres hp (hlf pr.1 hprl))
            (closed_pres hp (hrf pr.2 hprr)))
        | fuelOut => simp
      · intro s3 pr s4 _ h4 hp
        cases hc : constrainF f s3 pr.1.2.1 pr.2.2.1 with
        | ok s5 =>
          rw [hc] at h4
          dsimp only at h4
          refine statePreserved_trans hp (statePreserved_trans
            (constrain_preserves f s3 _ _ s5 hc) ?_)
          split at h4 <;> split at h4 <;> cases h4 <;>
            first
            | exact statePreserved_refl _
            | exact statePreserved_mapOrInsert _ _ _
            | exact statePreserved_trans (statePreserved_mapOrInsert _ _ _)
                (statePreserved_mapOrInsert _ _ _)
        | panicked => rw [hc] at h4; exact absurd h4 (by simp)
        | fuelOut => rw [hc] at h4; exact absurd h4 (by simp)
    case h_17 => split <;> simp
    case h_18 => split <;> simp
    case h_19 => simp

/-! ## Claim theorems -/

/-- C5 counterexample: the claim says the `break` expression node
(`LoopBreak`) yields `FlowNone`, but `check_inner` yields `None` for it
(ty.rs line 161). -/
theorem c5_counterexample :
    ¬ (checkInnerLeaf SyntaxKind.LoopBreak = some FlowType.FlowNone) := by
  intro h
  rw [show checkInnerLeaf SyntaxKind.LoopBreak = some FlowType.None from rfl] at h
  simp at h

/-- C5 (amended): the control-exit *expression* nodes `LoopBreak`,
`LoopContinue` and `FuncReturn` yield `None`; only the bare keyword nodes
`Break`, `Continue` and `Return` yield `FlowNone` (ty.rs lines 161–163
and 171–173). -/
theorem c5_control_exit_types :
    checkInnerLeaf SyntaxKind.LoopBreak = some FlowType.None ∧
    checkInnerLeaf SyntaxKind.LoopContinue = some FlowType.None ∧
    checkInnerLeaf SyntaxKind.FuncReturn = some FlowType.None ∧
    checkInnerLeaf SyntaxKind.Break = some FlowType.FlowNone ∧
    checkInnerLeaf SyntaxKind.Continue = some FlowType.FlowNone ∧
    checkInnerLeaf SyntaxKind.Return = some FlowType.FlowNone :=
  ⟨rfl, rfl, rfl, rfl, rfl, rfl⟩

/-- C6 counterexample: joining a control-exit child (`FlowNone`) does
*not* set the Joiner's poison flag — `Joiner::join` has no arm that ever
assigns `break_or_continue_or_return`, and the `FlowNone` arm is a
no-op. -/
theorem c6_counterexample :
    ¬ ((Joiner.join Joiner.default FlowType.FlowNone).break_or_continue_or_return
        = true) := by
  intro h
  rw [show (Joiner.join Joiner.default FlowType.FlowNone).break_or_continue_or_return
        = false from rfl] at h
  simp at h

/-- C6 (amended): joining a control-exit child (`FlowNone`) leaves the
whole joiner state unchanged and in particular never sets the poison
flag; and whenever the flag *is* set (which no statement of `join` ever
does), joining any child is the identity. -/
theorem c6_join_poison :
    (∀ j : Joiner, Joiner.join j FlowType.FlowNone = j) ∧
    (∀ (j : Joiner) (c : FlowType),
      j.break_or_continue_or_return = true → Joiner.join j c = j) := by
  constructor
  · intro j
    rcases j with ⟨b, d, p⟩
    cases b
    · cases d <;> rfl
    · rfl
  · intro j c h
    unfold Joiner.join
    rw [h]
    simp

/-- C6 witness: the second part of `c6_join_poison` at a concrete
poisoned joiner. -/
theorem c6_join_poison_witness :
    Joiner.join ⟨true, FlowType.None, []⟩ FlowType.Content
      = ⟨true, FlowType.None, []⟩ :=
  c6_join_poison.2 ⟨true, FlowType.None, []⟩ FlowType.Content rfl

/-- C8: the type produced from the candidate list collected by
`check_apply` is the single candidate when there is exactly one, `Any`
when there is none, and the `Union` of all candidates otherwise. -/
theorem c8_func_call_candidates :
    ∀ cs : List FlowType,
      (cs = [] → funcCallFromCandidates cs = FlowType.Any) ∧
      (∀ c, cs = [c] → funcCallFromCandidates cs = c) ∧
      (2 ≤ cs.length → funcCallFromCandidates cs = FlowType.Union cs) := by
  intro cs
  refine ⟨?_, ?_, ?_⟩
  · intro h; subst h; rfl
  · intro c h; subst h; rfl
  · intro h
    unfold funcCallFromCandidates
    have h1 : cs.length ≠ 1 := by omega
    have h2 : ¬ cs.isEmpty := by
      cases cs <;> simp_all
    simp [h1, h2]

/-- C8 witness: two candidates produce their `Union`. -/
theorem c8_func_call_candidates_witness :
    funcCallFromCandidates [FlowType.Content, FlowType.Auto]
      = FlowType.Union [FlowType.Content, FlowType.Auto] :=
  (c8_func_call_candidates [FlowType.Content, FlowType.Auto]).2.2 (by decide)

/-- C9: a `simplify` call writes only the canonicalization store
(`cano_local_cache` and the polarity scratch sets); the `vars` table and
the span→type `mapping` are identical before and after, whatever the
outcome. -/
theorem c9_simplify_frame :
    ∀ (info : TypeCheckInfoS) (fuel : Nat) (ty : FlowType) (principal : Bool),
      (TypeCheckInfoS.simplify info fuel ty principal).1.vars = info.vars ∧
      (TypeCheckInfoS.simplify info fuel ty principal).1.mapping = info.mapping := by
  intro info fuel ty principal
  unfold TypeCheckInfoS.simplify
  cases analyzeF fuel info.vars ([], []) ty true with
  | ok psns =>
    dsimp only
    cases transformF fuel ⟨principal, info.vars, psns.1, psns.2⟩ [] ty true with
    | ok p => obtain ⟨r, memo⟩ := p; exact ⟨rfl, rfl⟩
    | panicked => exact ⟨rfl, rfl⟩
    | fuelOut => exact ⟨rfl, rfl⟩
  | panicked => exact ⟨rfl, rfl⟩
  | fuelOut => exact ⟨rfl, rfl⟩

/-- C4 counterexample: a `With` carrying one applied bundle of **two**
positional arguments, over a 3-ary function. `signatures` keeps `3 − 1 = 2`
positionals (one per applied *bundle*, `args.len()` in
`instantiate_signature`), while the claim predicts `3 − 2 = 1` (the total
count of applied arguments). -/
theorem c4_counterexample :
    signatures 10 [] true
        (.With (.Func [.Any, .Any, .Any] [] Option.none .Any)
          [([.Any, .Any], [])])
      = .ok (some [⟨[.Any, .Any], [], Option.none, .Any⟩]) ∧
    (2 : Nat) ≠ 3 - 2 :=
  ⟨rfl, by decide⟩

/-- C4 (amended): for `With(f, l)` the extracted signatures are those of
`f` with `l.length` — the number of applied argument *bundles*, not the
total count of applied arguments — leading positionals dropped, so each
positional arity is `arity(f) − |l|` clamped at 0 (truncated `Nat`
subtraction); the simplify post-pass of `signatures` preserves every
positional arity. -/
theorem c4_with_arity :
    (∀ (fuel : Nat) (vars : VarMap) (principal : Bool) (f : FlowType)
        (l : List FlowArgs),
      check_signatures (fuel + 1) vars principal (.With f l)
        = instantiate_signature fuel vars principal f l) ∧
    (∀ (fuel : Nat) (vars : VarMap) (principal : Bool) (f : FlowType)
        (l : List FlowArgs),
      instantiate_signature fuel vars principal f l
        = (check_signatures fuel vars principal f).map
            (List.map fun sig => { sig with pos := sig.pos.drop l.length })) ∧
    (∀ (sig : FlowSignature) (n : Nat),
      ({ sig with pos := sig.pos.drop n } : FlowSignature).pos.length
        = sig.pos.length - n) ∧
    (∀ (fuel : Nat) (principal : Bool) (vars : VarMap)
        (sig sig2 : FlowSignature),
      simplifySig fuel principal vars sig = .ok sig2 →
      sig2.pos.length = sig.pos.length) := by
  refine ⟨?_, ?_, ?_, ?_⟩
  · intro fuel vars principal f l
    rfl
  · intro fuel vars principal f l
    rfl
  · intro sig n
    simp
  · intro fuel principal vars sig sig2 h
    unfold simplifySig at h
    cases hp : tresMapList (fun p => simplifyWorker fuel principal vars p) sig.pos with
    | ok pos2 =>
      rw [hp] at h
      cases hn :
        tresMapSndList (fun p => simplifyWorker fuel principal vars p) sig.named with
      | ok named2 =>
        rw [hn] at h
        cases h
        exact tresMapList_length hp
      | panicked => rw [hn] at h; exact absurd h (by simp)
      | fuelOut => rw [hn] at h; exact absurd h (by simp)
    | panicked => rw [hp] at h; exact absurd h (by simp)
    | fuelOut => rw [hp] at h; exact absurd h (by simp)

/-- C4 witness: the simplify post-pass at a concrete signature keeps its
single positional slot. -/
theorem c4_with_arity_witness :
    (⟨[.Content], [], Option.none, .Content⟩ : FlowSignature).pos.length
      = (⟨[.Content], [], Option.none, .Content⟩ : FlowSignature).pos.length :=
  c4_with_arity.2.2.2 10 true []
    ⟨[.Content], [], Option.none, .Content⟩
    ⟨[.Content], [], Option.none, .Content⟩ rfl

/-- C1 counterexample: over `c1Vars` (one variable with two informative
lower bounds), the first `simplify` of the variable produces
`Let [Content, Content] []`, but simplifying that result again collapses
it to `Any` (the `Let` arm of `transform` is `Any`), so
`simplify(simplify(τ, p), p) ≠ simplify(τ, p)`. -/
theorem c1_counterexample :
    simplifyWorker 10 true c1Vars (.Var 0 "v")
      = .ok (.Let [.Content, .Content] []) ∧
    simplifyWorker 10 true c1Vars (.Let [.Content, .Content] [])
      = .ok .Any ∧
    FlowType.Any ≠ FlowType.Let [.Content, .Content] [] :=
  ⟨rfl, rfl, fun h => FlowType.noConfusion h⟩

/-- C1 (amended): simplification is idempotent on every type that
contains no inference variable and no `Let` binder — there it is the
identity, hence a fixed point; in general idempotence fails because a
variable with several informative bounds simplifies to a `Let` which a
second pass collapses to `Any`. -/
theorem c1_simplify_idempotent_varlet_free :
    ∀ (n fuel : Nat) (ty : FlowType) (principal : Bool) (vars : VarMap),
      noVarLetF n ty = true → n ≤ fuel →
      simplifyWorker fuel principal vars ty = .ok ty ∧
      tresBind (simplifyWorker fuel principal vars ty)
          (fun r => simplifyWorker fuel principal vars r)
        = simplifyWorker fuel principal vars ty := by
  intro n fuel ty principal vars h hfuel
  have hid := simplifyWorker_id h hfuel principal vars
  refine ⟨hid, ?_⟩
  rw [hid]
  simp only [tresBind]
  exact hid

/-- C1 witness: the amended idempotence at a concrete `Var`/`Let`-free
function type. -/
theorem c1_simplify_idempotent_varlet_free_witness :
    simplifyWorker 10 true [] (.Func [.Content] [] Option.none .Content)
      = .ok (.Func [.Content] [] Option.none .Content) :=
  (c1_simplify_idempotent_varlet_free 3 10
    (.Func [.Content] [] Option.none .Content) true [] rfl (by decide)).1

/-- C2 counterexample: on the self-referential store `recVars`
(`rec ⪰ rec`), `simplify` runs out of any recursion budget — the analyze
phase re-enters the variable's bounds with no memo, so the claim that
`simplify` terminates on every input, and in particular on a variable
whose own bounds reference itself, is false. Only the transform phase
carries the cycle-safe memo. -/
theorem c2_counterexample : simplifyDivergesOnRec := by
  have ha : ∀ fuel st, analyzeF fuel recVars st (.Var 0 "rec") true = .fuelOut := by
    intro fuel
    induction fuel with
    | zero => intro st; rfl
    | succ f ihf =>
      intro st
      have hstep : analyzeF (f + 1) recVars st (.Var 0 "rec") true
          = tresFold (fun st3 lb => analyzeF f recVars st3 lb true)
              (setInsert st.1 0, st.2) [.Var 0 "rec"] := rfl
      rw [hstep]
      simp only [tresFold]
      rw [ihf (setInsert st.1 0, st.2)]
  intro fuel
  unfold simplifyWorker
  rw [ha fuel ([], [])]

/-- C2 (amended): the *transform* phase is cycle-safe on every variable
whose bounds reference itself: the per-variable memo is seeded with `Any`
(keyed by the `principal` flag) before the bounds are entered, so the
inner self-reference resolves to `Any` from the memo and the variable
collapses to `Any`; `simplify` as a whole still diverges on such stores
because the preceding analyze phase has no memo
(see the counterexample). -/
theorem c2_transform_cycle_collapses :
    ∀ (fuel : Nat) (c : SimpCtx) (memo : Memo) (v : DefId) (name : String)
      (r : FlowVarRec) (pol : Bool),
      memoLookup memo (v, c.principal) = Option.none →
      lookupVar c.vars v = some r →
      r.store.lbs = [.Var v name] →
      r.store.ubs = [] →
      (!c.principal || (pol && !(c.negatives.contains v))) = true →
      transformF (fuel + 2) c memo (.Var v name) pol
        = .ok (.Any, memoInsert memo (v, c.principal) .Any) := by
  intro fuel c memo v name r pol hmiss hlook hlbs hubs hdo
  simp only [transformF]
  rw [hmiss]
  dsimp only
  rw [hlook]
  dsimp only
  rw [hdo, hlbs, hubs]
  simp [tresMapM, memoLookup_memoInsert_same]

/-- C2 witness: the cycle-collapse theorem at the concrete
self-referential store. -/
theorem c2_transform_cycle_collapses_witness :
    transformF 12 ⟨false, recVars, [], []⟩ [] (.Var 0 "rec") true
      = .ok (.Any, [((0, false), .Any)]) :=
  c2_transform_cycle_collapses 10 ⟨false, recVars, [], []⟩ [] 0 "rec"
    ⟨"rec", ⟨[.Var 0 "rec"], []⟩⟩ true rfl rfl rfl rfl rfl

/-- C3: `constrain` only grows variable stores. `(Var v, σ)` with σ not a
`Var` appends σ to `v`'s upper bounds and changes nothing else; `(τ, Var
w)` with τ not a `Var` appends τ to `w`'s lower bounds; two `Var`s (same
or different id) leave both stores untouched; every successful
`constrain` call, and the `ever_be`/`as_strong` primitives, only append —
no bound is ever removed or replaced. -/
theorem c3_constrain_grows_only :
    (∀ (fuel : Nat) (s : TCState) (v : DefId) (name : String) (rhs : FlowType)
        (r : FlowVarRec),
      rhs.isVarB = false → lookupVar s.vars v = some r →
      constrainF (fuel + 1) s (.Var v name) rhs
        = .ok { s with vars := updateVar s.vars v ({ r with store := { r.store with ubs := r.store.ubs ++ [rhs] } }) }) ∧
    (∀ (fuel : Nat) (s : TCState) (v : DefId) (name : String) (lhs : FlowType)
        (r : FlowVarRec),
      lhs.isVarB = false → lookupVar s.vars v = some r →
      constrainF (fuel + 1) s lhs (.Var v name)
        = .ok { s with vars := updateVar s.vars v ({ r with store := { r.store with lbs := r.store.lbs ++ [lhs] } }) }) ∧
    (∀ (fuel : Nat) (s : TCState) (v w : DefId) (n1 n2 : String),
      constrainF (fuel + 1) s (.Var v n1) (.Var w n2) = .ok s) ∧
    (∀ (fuel : Nat) (s : TCState) (lhs rhs : FlowType) (s2 : TCState),
      constrainF fuel s lhs rhs = .ok s2 → StatePreserved s s2) ∧
    (∀ (w : FlowVarStore) (exp : FlowType),
      (w.ever_be exp).lbs = w.lbs ++ [exp] ∧ (w.ever_be exp).ubs = w.ubs) ∧
    (∀ (w : FlowVarStore) (exp : FlowType),
      (w.as_strong exp).lbs = w.lbs ++ [exp] ∧ (w.as_strong exp).ubs = w.ubs) := by
  refine ⟨?_, ?_, ?_, constrain_preserves, fun w exp => ⟨rfl, rfl⟩,
    fun w exp => ⟨rfl, rfl⟩⟩
  · intro fuel s v nm rhs r hvar hl
    cases rhs <;>
      first
      | (simp only [constrainF]; rw [hl])
      | simp [FlowType.isVarB] at hvar
  · intro fuel s v nm lhs r hvar hl
    cases lhs <;>
      first
      | (simp only [constrainF]; rw [hl])
      | simp [FlowType.isVarB] at hvar
  · intro fuel s v w n1 n2
    simp only [constrainF]
    split <;> rfl

/-- C3 witness: posting `Content` as an upper bound of a concrete
variable appends it to the store. -/
theorem c3_constrain_grows_only_witness :
    constrainF 1 ⟨[(0, ⟨"x", ⟨[], []⟩⟩)], []⟩ (.Var 0 "x") .Content
      = .ok ⟨[(0, ⟨"x", ⟨[], [.Content]⟩⟩)], []⟩ :=
  c3_constrain_grows_only.1 0 ⟨[(0, ⟨"x", ⟨[], []⟩⟩)], []⟩ 0 "x" .Content
    ⟨"x", ⟨[], []⟩⟩ rfl rfl

/-- C7 counterexample: the runtime-signature backfill of a positional
argument span uses a plain overwriting `mapping.insert`: a span already
recorded as `Content` is replaced by the declared parameter type
`Builtin(Length)`, so the claim that every inner backfill is
insert-if-absent is false. -/
theorem c7_counterexample :
    (match check_apply_runtime 10 ⟨[], [(5, FlowType.Content)]⟩
        ⟨[some (.Builtin .Length)], [], Option.none⟩ ([.Any], []) [SynArg.pos 5] with
     | .ok (s2, _) => mapLookup s2.mapping 5
     | .panicked => Option.none
     | .fuelOut => Option.none)
      = some (.Builtin .Length) ∧
    FlowType.Builtin .Length ≠ FlowType.Content :=
  ⟨rfl, fun h => FlowType.noConfusion h⟩

/-- C7 (amended): the backfills posted by `constrain` — the dict-field
peer backfill and the `Value`-span peer backfill — use insert-if-absent
semantics, so a successful `constrain` never overwrites an existing
span entry; but the runtime-signature backfill of positional and named
argument spans uses a plain `insert` that replaces any existing entry
(see the counterexample). -/
theorem c7_backfill_semantics :
    (∀ (fuel : Nat) (s : TCState) (lhs rhs : FlowType) (s2 : TCState)
        (sp : Span) (t0 : FlowType),
      constrainF fuel s lhs rhs = .ok s2 →
      mapLookup s.mapping sp = some t0 → mapLookup s2.mapping sp = some t0) ∧
    (∀ (m : Mapping) (sp : Span) (t t0 : FlowType),
      mapLookup m sp = some t0 → mapOrInsert m sp t = m) ∧
    (∀ (m : Mapping) (sp : Span) (t : FlowType),
      mapLookup (mapInsert m sp t) sp = some t) := by
  refine ⟨?_, ?_, mapLookup_mapInsert_same⟩
  · intro fuel s lhs rhs s2 sp t0 h hm
    exact (constrain_preserves fuel s lhs rhs s2 h).2.2 sp t0 hm
  · intro m sp t t0 hm
    unfold mapOrInsert
    rw [hm]

/-- C7 witness: a `Value`-span backfill against an already-recorded span
leaves the recorded type in place. -/
theorem c7_backfill_semantics_witness :
    mapLookup (⟨[], [(5, FlowType.Content)]⟩ : TCState).mapping 5
      = some FlowType.Content :=
  c7_backfill_semantics.1 1 ⟨[], [(5, FlowType.Content)]⟩ (.Value 0 5) .Auto
    ⟨[], [(5, FlowType.Content)]⟩ 5 .Content rfl rfl

/-- **C10.** Every `Var` the walker produces is safe to consume:
`get_var` returns a `Var` whose definition id is bound in the updated
variable table, and whenever the table and the consumed types satisfy
that closedness invariant, the unchecked `unwrap()` variable lookups in
`constrain`, `check_primary_type`, and the simplifier's analyze and
transform phases never hit a missing entry. -/
theorem c10_var_lookups_safe :
    ∀ (fuel : Nat) (s : TCState), VarMapClosed s.vars →
      ∀ (lhs rhs : FlowType), Closed s.vars lhs → Closed s.vars rhs →
        (∀ (defId : DefId) (name : String) (span : Span), ∃ r,
          lookupVar (get_var s defId name span).1.vars defId = some r ∧
            (get_var s defId name span).2 = .Var defId r.name) ∧
        constrainF fuel s lhs rhs ≠ .panicked ∧
        check_primary_type s.vars lhs ≠ .panicked ∧
        (∀ (st : List DefId × List DefId) (pol : Bool),
          analyzeF fuel s.vars st lhs pol ≠ .panicked) ∧
        (∀ (principal : Bool) (pos neg : List DefId) (memo : Memo)
            (pol : Bool),
          transformF fuel ⟨principal, s.vars, pos, neg⟩ memo lhs pol
            ≠ .panicked) := by
  intro fuel s hvm lhs rhs hlc hrc
  exact ⟨fun defId name span => get_var_present s defId name span,
    constrain_no_panic fuel s lhs rhs hlc hrc,
    check_primary_type_no_panic s.vars lhs hlc,
    fun st pol => analyze_no_panic fuel s.vars hvm lhs hlc st pol,
    fun principal pos neg memo pol =>
      transform_no_panic fuel ⟨principal, s.vars, pos, neg⟩ hvm lhs hlc
        memo pol⟩

/-- C10 witness: on the self-referential table `recVars` (`rec` has
itself as a lower bound), constraining `Var rec ⪯ Content` and
simplifying `Var rec` both complete without hitting a missing entry. -/
theorem c10_var_lookups_safe_witness :
    constrainF 6 ⟨recVars, []⟩ (.Var 0 "rec") .Content ≠ .panicked ∧
    transformF 6 ⟨true, recVars, [], []⟩ [] (.Var 0 "rec") true
      ≠ .panicked := by
  have hcl : Closed recVars (.Var 0 "rec") :=
    Closed.var 0 "rec" ⟨"rec", ⟨[.Var 0 "rec"], []⟩⟩ rfl
  have hvm : VarMapClosed recVars := by
    intro id r hrec
    simp only [recVars, lookupVar] at hrec
    split at hrec
    · cases hrec
      refine ⟨?_, ?_⟩
      · intro t ht
        simp only [List.mem_singleton] at ht
        subst ht
        exact hcl
      · intro t ht
        simp at ht
    · simp at hrec
  have h := c10_var_lookups_safe 6 ⟨recVars, []⟩ hvm (.Var 0 "rec")
    .Content hcl Closed.content
  exact ⟨h.2.1, h.2.2.2.2 true [] [] [] true⟩

end Tinymist
